import Mathlib

/-!
Verification of the OpenCongress streaming chunker, hierarchical summarizer,
embedding pipeline and job tracker.

Shallow embedding conventions:
* Python strings are modelled as `List Char`; `re.sub(r'\s+', ' ')`-cleaned page
  texts and arbitrary strings alike.  Whitespace is modelled by the six ASCII
  whitespace characters recognized by Python's `str.strip` / regex `\s` on the
  ASCII plane (all texts handled by the pipeline are cleaned ASCII-spaced text).
* Database tables are modelled as lists of row structures; SQL upserts become
  list updates; `ORDER BY` becomes an insertion sort by the relevant key.
* The Gemini embedding/generation capability is an oracle parameter
  (`List Char → Option (List Char)`): `none` models a raised exception.
* Vector distances (floats) are abstracted as an oracle returning `Nat`; only
  their ordering is ever used by the code.
* Generator functions become pure functions returning lists; the inner
  `while len(buffer) >= chunk_chars` loop of `chunk_page_stream` is given an
  explicit fuel parameter (`none` = fuel exhausted, i.e. nontermination);
  with the configured parameters we prove fuel `buffer.length` always suffices.
-/

namespace OpenCongress

/-- Python whitespace predicate (`str.strip`, regex `\s`) restricted to ASCII. -/
def pySpace (c : Char) : Bool :=
  c = ' ' ∨ c = '\t' ∨ c = '\n' ∨ c = '\r' ∨ c = '\x0b' ∨ c = '\x0c'

/-- Python `str.strip()` on `List Char`: drop whitespace from both ends. -/
def pyStrip (l : List Char) : List Char :=
  ((l.dropWhile pySpace).reverse.dropWhile pySpace).reverse

/-- Python `str.lower()` (ASCII range; all vocabulary handled is ASCII). -/
def pyLower (l : List Char) : List Char := l.map Char.toLower

/-- Python substring test `needle in hay` on strings. -/
def hasSub (hay needle : List Char) : Bool :=
  needle.isPrefixOf hay ||
    match hay with
    | [] => false
    | _ :: t => hasSub t needle

/-- Join a list of strings with a separator (Python `sep.join(parts)`). -/
def joinSep (sep : List Char) : List (List Char) → List Char
  | [] => []
  | [t] => t
  | t :: rest => t ++ sep ++ joinSep sep rest

/-- Python `text.split('\n')` (keeps empty fields). -/
def splitNlAux : List Char → List Char → List (List Char)
  | [], acc => [acc.reverse]
  | c :: rest, acc =>
    if c = '\n' then acc.reverse :: splitNlAux rest []
    else splitNlAux rest (c :: acc)

def splitNl (l : List Char) : List (List Char) := splitNlAux l []

/-- Python `text.split()` (split on whitespace runs, dropping empties). -/
def pySplitAux : List Char → List Char → List (List Char)
  | [], acc => if acc.isEmpty then [] else [acc.reverse]
  | c :: rest, acc =>
    if pySpace c then
      if acc.isEmpty then pySplitAux rest [] else acc.reverse :: pySplitAux rest []
    else pySplitAux rest (c :: acc)

def pySplit (l : List Char) : List (List Char) := pySplitAux l []

/-- Insertion step for the sort modelling SQL `ORDER BY`. -/
def insertBy (le : α → α → Bool) (a : α) : List α → List α
  | [] => [a]
  | b :: rest => if le a b then a :: b :: rest else b :: insertBy le a rest

/-- Stable insertion sort modelling SQL `ORDER BY key`. -/
def sortBy (le : α → α → Bool) : List α → List α
  | [] => []
  | a :: rest => insertBy le a (sortBy le rest)

/-- `|a - b|` on naturals. -/
def distN (a b : Nat) : Nat := max a b - min a b

/-- `natRange a n = [a, a+1, ..., a+n-1]` (used to specify dense chunk indices). -/
def natRange (a : Nat) : Nat → List Nat
  | 0 => []
  | n + 1 => a :: natRange (a + 1) n

/-! ## `StreamingPDFProcessor._find_break_point`
    (src/backend/streaming_pdf_processor.py, lines 116-146) -/

/-- Is `c` one of the sentence-ending characters of the regex `[.!?]\s+`? -/
def sentPunct (c : Char) : Bool := c = '.' ∨ c = '!' ∨ c = '?'

/-- Ends (`m.end()`) of the non-overlapping matches of `re.finditer(r'[.!?]\s+', region)`,
relative positions offset by `i`.  A match starts at a sentence punctuation character
directly followed by at least one whitespace character and extends greedily over the
whitespace run; matches of this regex can never overlap, so scanning every position
is exactly `re.finditer`. -/
def sentenceEnds : List Char → Nat → List Nat
  | c1 :: c2 :: rest, i =>
    if sentPunct c1 ∧ pySpace c2 then
      (i + 2 + (rest.takeWhile pySpace).length) :: sentenceEnds (c2 :: rest) (i + 1)
    else sentenceEnds (c2 :: rest) (i + 1)
  | _, _ => []

/-- One step of Python `min(xs, key=key)` folding (first minimum wins ties). -/
def minByStep (key : Nat → Nat) (acc : Option Nat) (x : Nat) : Option Nat :=
  match acc with
  | none => some x
  | some b => if key x < key b then some x else some b

/-- Python `min(xs, key=key)` (`none` on the empty list; keeps the first of tied minima). -/
def minByFirst (key : Nat → Nat) (l : List Nat) : Option Nat :=
  l.foldl (minByStep key) none

/-- Python `text.find(' ', start)` scanning `l = text[start:]`: index of the first
space at position `≥ i`, where `i` is the absolute index of the head of `l`. -/
def findSpaceAux : List Char → Nat → Option Nat
  | [], _ => none
  | c :: rest, i => if c = ' ' then some i else findSpaceAux rest (i + 1)

/-- Python `text.find(' ', start)` (absolute index; `none` models `-1`). -/
def findSpaceFrom (text : List Char) (start : Nat) : Option Nat :=
  findSpaceAux (text.drop start) start

/-- `StreamingPDFProcessor._find_break_point(text, target)`: prefer a sentence
boundary in a ±200 window around `target`, then the next space at or after
`target`, then `target` itself; buffers not longer than `target` break at their
full length.  (Nat subtraction gives Python's `max(0, target - 200)`.) -/
def findBreakPoint (text : List Char) (target : Nat) : Nat :=
  if text.length ≤ target then text.length
  else
    let searchStart := target - 200
    let searchEnd := min text.length (target + 200)
    let region := (text.take searchEnd).drop searchStart
    match minByFirst (fun x => distN (searchStart + x) target) (sentenceEnds region 0) with
    | some closest => searchStart + closest
    | none =>
      if target < text.length then
        match findSpaceFrom text target with
        | some p => p
        | none => target
      else target

/-! ## `StreamingPDFProcessor.chunk_page_stream`
    (src/backend/streaming_pdf_processor.py, lines 42-114) -/

/-- Constructor parameters of `StreamingPDFProcessor`. -/
structure Cfg where
  chunkChars : Nat
  overlapChars : Nat
  bucketSize : Nat
deriving DecidableEq

/-- The parameters used throughout the pipeline (`BillRAGEmbedder.__init__` and
the `StreamingPDFProcessor` defaults): 3500-char chunks, 600-char overlap,
50-page buckets. -/
def defaultCfg : Cfg := { chunkChars := 3500, overlapChars := 600, bucketSize := 50 }

/-- A chunk record yielded by `chunk_page_stream`. -/
structure Chunk where
  text : List Char
  pageStart : Nat
  pageEnd : Nat
  bucketId : Nat
  charStart : Nat
  charEnd : Nat
  chunkIndex : Nat
deriving DecidableEq

/-- The loop state of `chunk_page_stream` (`buffer`, `buffer_page_start`,
`buffer_page_end`, `char_position`, `chunk_index`).  The two page trackers are
`None` in Python until the first page arrives; they are only ever read after a
page arrived, so they are modelled as `Nat` initialized to 0. -/
structure ChunkState where
  buffer : List Char
  pageStart : Nat
  pageEnd : Nat
  charPos : Nat
  chunkIndex : Nat
deriving DecidableEq

/-- One iteration of the inner `while len(buffer) >= self.chunk_chars` loop:
find a break point, yield the stripped chunk if non-empty, keep the overlap. -/
def emitChunk (cfg : Cfg) (s : ChunkState) : ChunkState × List Chunk :=
  let bp := findBreakPoint s.buffer cfg.chunkChars
  let chunkText := pyStrip (s.buffer.take bp)
  let emitted : List Chunk :=
    if chunkText = [] then []
    else [{ text := chunkText, pageStart := s.pageStart, pageEnd := s.pageEnd,
            bucketId := (s.pageStart - 1) / cfg.bucketSize,
            charStart := s.charPos, charEnd := s.charPos + chunkText.length,
            chunkIndex := s.chunkIndex }]
  let overlapStart := bp - cfg.overlapChars
  let buffer2 := s.buffer.drop overlapStart
  let pageStart2 := if buffer2.length < cfg.overlapChars then s.pageEnd else s.pageStart
  ({ buffer := buffer2, pageStart := pageStart2, pageEnd := s.pageEnd,
     charPos := s.charPos + (bp - overlapStart),
     chunkIndex := s.chunkIndex + emitted.length }, emitted)

/-- The inner emission loop, with explicit fuel; `none` models nontermination.
The loop body strictly shrinks the buffer under `defaultCfg`, so fuel equal to
the buffer length always suffices (proved below). -/
def emitLoop (cfg : Cfg) : Nat → ChunkState → Option (List Chunk × ChunkState)
  | 0, s => if s.buffer.length < cfg.chunkChars then some ([], s) else none
  | fuel + 1, s =>
    if s.buffer.length < cfg.chunkChars then some ([], s)
    else
      let r := emitChunk cfg s
      match emitLoop cfg fuel r.1 with
      | none => none
      | some (cs, s3) => some (r.2 ++ cs, s3)

/-- Consuming one `(page_num, page_text)` pair from the stream: remember the
page range and append `" " + page_text` to the buffer. -/
def feedPage (s : ChunkState) (pageNum : Nat) (text : List Char) : ChunkState :=
  { s with pageStart := if s.buffer = [] then pageNum else s.pageStart,
           buffer := s.buffer ++ ' ' :: text,
           pageEnd := pageNum }

/-- The `for page_num, page_text in page_stream` loop of `chunk_page_stream`. -/
def chunkPages (cfg : Cfg) : List (Nat × List Char) → ChunkState → Option (List Chunk × ChunkState)
  | [], s => some ([], s)
  | (pn, t) :: rest, s =>
    let s1 := feedPage s pn t
    match emitLoop cfg s1.buffer.length s1 with
    | none => none
    | some (cs, s2) =>
      match chunkPages cfg rest s2 with
      | none => none
      | some (cs2, s3) => some (cs ++ cs2, s3)

/-- `# Yield final chunk if buffer has content` at the end of `chunk_page_stream`. -/
def finalFlush (cfg : Cfg) (s : ChunkState) : List Chunk :=
  if pyStrip s.buffer = [] then []
  else [{ text := pyStrip s.buffer, pageStart := s.pageStart, pageEnd := s.pageEnd,
          bucketId := (s.pageStart - 1) / cfg.bucketSize,
          charStart := s.charPos, charEnd := s.charPos + s.buffer.length,
          chunkIndex := s.chunkIndex }]

/-- `chunk_page_stream(page_stream)`: the whole generator as a function from the
finite page stream to the list of yielded chunks. -/
def chunkPageStream (cfg : Cfg) (pages : List (Nat × List Char)) : Option (List Chunk) :=
  match chunkPages cfg pages { buffer := [], pageStart := 0, pageEnd := 0, charPos := 0, chunkIndex := 0 } with
  | none => none
  | some (cs, s) => some (cs ++ finalFlush cfg s)

/-- `iter_pdf_pages` numbering: pages are 1-indexed, in document order. -/
def pagesFrom (k : Nat) : List (List Char) → List (Nat × List Char)
  | [] => []
  | t :: ts => (k, t) :: pagesFrom (k + 1) ts

/-- `process_pdf_streaming`: stream the (cleaned) page texts of the document
through `chunk_page_stream` with 1-indexed page numbers. -/
def processPdfStreaming (cfg : Cfg) (texts : List (List Char)) : Option (List Chunk) :=
  chunkPageStream cfg (pagesFrom 1 texts)

/-- Page numbers weakly increase along the stream, starting from `base`
(the stream produced by `iter_pdf_pages` is 1-indexed and increasing). -/
def pagesMono : Nat → List (Nat × List Char) → Prop
  | _, [] => True
  | base, (pn, _) :: rest => base ≤ pn ∧ pagesMono pn rest


/-- The buffer contents contributed by a list of page texts:
`" " + text` per page. -/
def joinPages (texts : List (List Char)) : List Char :=
  (texts.map (fun t => ' ' :: t)).join


/-! ## `HierarchicalSummarizer` parsing helpers
    (src/backend/hierarchical_summarizer.py, lines 231-345) -/

/-- `line.strip().startswith(('-', '•', '*'))` applied to an already stripped line. -/
def startsBullet : List Char → Bool
  | [] => false
  | c :: _ => c = '-' ∨ c = '•' ∨ c = '*'

/-- `startswith('#')`. -/
def startsHash : List Char → Bool
  | [] => false
  | c :: _ => c = '#'

/-- `startswith('##')`. -/
def startsHash2 : List Char → Bool
  | a :: b :: _ => a = '#' ∧ b = '#'
  | _ => false

/-- `_extract_provisions` loop: collect bullet lines (and capped plain lines)
after a `key provisions` heading, stopping at the next `##` heading. -/
def extractProvisionsAux : List (List Char) → Bool → List (List Char) → List (List Char)
  | [], _, acc => acc
  | line :: rest, inProv, acc =>
    if hasSub (pyLower line) "key provisions".data then extractProvisionsAux rest true acc
    else if inProv then
      let st := pyStrip line
      let acc2 :=
        if startsBullet st then acc ++ [pyStrip (st.drop 1)]
        else if st ≠ [] ∧ ¬ startsHash st then (if acc.length < 10 then acc ++ [st] else acc)
        else acc
      if startsHash2 st then acc2 else extractProvisionsAux rest true acc2
    else extractProvisionsAux rest inProv acc

/-- `HierarchicalSummarizer._extract_provisions`. -/
def extractProvisions (t : List Char) : List (List Char) :=
  (extractProvisionsAux (splitNl t) false []).take 10

/-- `_extract_financial_impact` loop. -/
def extractFinancialAux : List (List Char) → Bool → List (List Char) → List (List Char)
  | [], _, acc => acc
  | line :: rest, inFin, acc =>
    if hasSub (pyLower line) "financial impact".data then extractFinancialAux rest true acc
    else if inFin then
      if startsHash2 (pyStrip line) then acc
      else if pyStrip line ≠ [] then extractFinancialAux rest true (acc ++ [pyStrip line])
      else extractFinancialAux rest true acc
    else extractFinancialAux rest inFin acc

/-- `HierarchicalSummarizer._extract_financial_impact`. -/
def extractFinancialImpact (t : List Char) : Option (List Char) :=
  let ls := extractFinancialAux (splitNl t) false []
  if ls = [] then none else some (joinSep [' '] ls)

/-- `_extract_key_points` loop: bullet lines anywhere, nonempty, capped at 8. -/
def extractKeyPointsAux : List (List Char) → List (List Char) → List (List Char)
  | [], acc => acc
  | line :: rest, acc =>
    let st := pyStrip line
    if startsBullet st then
      let point := pyStrip (st.drop 1)
      if point ≠ [] ∧ acc.length < 8 then extractKeyPointsAux rest (acc ++ [point])
      else extractKeyPointsAux rest acc
    else extractKeyPointsAux rest acc

/-- `HierarchicalSummarizer._extract_key_points`. -/
def extractKeyPoints (t : List Char) : List (List Char) :=
  extractKeyPointsAux (splitNl t) []

/-- `_extract_financial_section` loop (case-sensitive `## FINANCIAL IMPACT` trigger). -/
def extractFinancialSectionAux : List (List Char) → Bool → List (List Char) → List (List Char)
  | [], _, acc => acc
  | line :: rest, inFin, acc =>
    if hasSub line "## FINANCIAL IMPACT".data then extractFinancialSectionAux rest true acc
    else if inFin then
      if startsHash2 (pyStrip line) then acc
      else if pyStrip line ≠ [] then extractFinancialSectionAux rest true (acc ++ [pyStrip line])
      else extractFinancialSectionAux rest true acc
    else extractFinancialSectionAux rest inFin acc

/-- `HierarchicalSummarizer._extract_financial_section`. -/
def extractFinancialSection (t : List Char) : List Char :=
  let ls := extractFinancialSectionAux (splitNl t) false []
  if ls = [] then "No specific financial provisions identified".data else joinSep [' '] ls

/-- The fixed high-salience vocabulary of `_estimate_importance`. -/
def importanceKeywords : List (List Char) :=
  ["appropriates".data, "billion".data, "million".data, "national security".data,
   "emergency".data, "crisis".data, "reform".data, "establishes".data, "creates".data]

/-- `HierarchicalSummarizer._estimate_importance`: count the vocabulary terms
present in the lowercased text and map the count through fixed thresholds to a
1-5 scale. -/
def estimateImportance (t : List Char) : Nat :=
  let textLower := pyLower t
  let matchCount := (importanceKeywords.filter (fun k => hasSub textLower k)).length
  if 6 ≤ matchCount then 5
  else if 4 ≤ matchCount then 4
  else if 2 ≤ matchCount then 3
  else if 1 ≤ matchCount then 2
  else 1

/-- `HierarchicalSummarizer._estimate_reading_time` (≈200 words per minute). -/
def estimateReadingTime (t : List Char) : List Char :=
  let words := (pySplit t).length
  let minutes := max 1 (words / 200)
  if minutes = 1 then "1 minute".data
  else if minutes < 60 then (Nat.repr minutes).data ++ " minutes".data
  else
    let hours := minutes / 60
    let rem := minutes % 60
    let hoursTxt := (Nat.repr hours).data ++ " hour".data ++ (if 1 < hours then "s".data else [])
    if rem = 0 then hoursTxt
    else hoursTxt ++ [' '] ++ (Nat.repr rem).data ++ " minutes".data

/-! ## Data model: relational tables as lists of rows -/

/-- A bill identifier `(congress, bill_type, bill_number)`. -/
structure BillId where
  congress : Nat
  billType : List Char
  billNumber : List Char
deriving DecidableEq

/-- A row of the `bill_chunks` table. -/
structure ChunkRow where
  bill : BillId
  chunkIndex : Nat
  text : List Char
  embedding : List Char
  pageStart : Nat
  pageEnd : Nat
  bucketId : Option Nat
deriving DecidableEq

/-- A row of the `bill_chunk_summaries` table. -/
structure BucketSummaryRow where
  bill : BillId
  bucketId : Nat
  pageStart : Nat
  pageEnd : Nat
  summaryText : List Char
  keyProvisions : List (List Char)
  financialImpact : Option (List Char)
deriving DecidableEq

/-- The JSON payload stored in `bill_summaries.summary`. -/
structure SummaryData where
  tldr : List Char
  keyPoints : List (List Char)
  financialInfo : List Char
  importance : Nat
  readingTime : List Char
  cached : Bool
deriving DecidableEq

/-- A row of the `bill_summaries` table. -/
structure BillSummaryRow where
  bill : BillId
  summary : SummaryData
deriving DecidableEq

/-- The `status` column of `bill_embedding_jobs` (only these four values are
ever written by the code). -/
inductive JobStatus where
  | pending
  | processing
  | completed
  | failed
deriving DecidableEq

/-- A row of the `bill_embedding_jobs` table.  `completedAt` abstracts the
`completed_at` timestamp to set/not-set. -/
structure JobRow where
  jobId : Nat
  bill : BillId
  status : JobStatus
  totalPages : Option Nat
  pagesProcessed : Option Nat
  chunksEmbedded : Option Nat
  mapSummariesDone : Option Nat
  reduceDone : Option Bool
  errorMessage : Option (List Char)
  completedAt : Bool
deriving DecidableEq

/-- The database. -/
structure DB where
  chunks : List ChunkRow
  bucketSummaries : List BucketSummaryRow
  billSummaries : List BillSummaryRow
  jobs : List JobRow
deriving DecidableEq

/-- `SELECT ... FROM bill_chunks WHERE congress = $1 AND bill_type = $2 AND bill_number = $3`. -/
def chunkRowsOf (db : DB) (b : BillId) : List ChunkRow :=
  db.chunks.filter (fun r => decide (r.bill = b))

/-! ## Job progress updates
    (src/backend/bill_rag_embedder.py lines 219-251,
     src/backend/hierarchical_summarizer.py lines 319-345 of module,
     src/backend/background_jobs.py lines 61-86) -/

/-- `BillRAGEmbedder._update_job_progress`: builds a SET list from the provided
fields and appends `status = 'processing'` unconditionally; executes nothing
when no field is provided. -/
def updateJobProgressEmbed (jobs : List JobRow) (jobId : Nat)
    (totalPages pagesProcessed chunksEmbedded : Option Nat) : List JobRow :=
  if totalPages = none ∧ pagesProcessed = none ∧ chunksEmbedded = none then jobs
  else jobs.map fun r =>
    if r.jobId = jobId then
      { r with
        totalPages := if totalPages.isSome then totalPages else r.totalPages,
        pagesProcessed := if pagesProcessed.isSome then pagesProcessed else r.pagesProcessed,
        chunksEmbedded := if chunksEmbedded.isSome then chunksEmbedded else r.chunksEmbedded,
        status := JobStatus.processing }
    else r

/-- `HierarchicalSummarizer._update_job_progress`: updates only
`map_summaries_done` / `reduce_done`; never touches `status`. -/
def updateJobProgressSumm (jobs : List JobRow) (jobId : Nat)
    (mapSummariesDone : Option Nat) (reduceDone : Option Bool) : List JobRow :=
  if mapSummariesDone = none ∧ reduceDone = none then jobs
  else jobs.map fun r =>
    if r.jobId = jobId then
      { r with
        mapSummariesDone := if mapSummariesDone.isSome then mapSummariesDone else r.mapSummariesDone,
        reduceDone := if reduceDone.isSome then reduceDone else r.reduceDone }
    else r

/-- `EmbeddingJobManager.update_status`: terminal statuses also stamp
`completed_at`; the error message is written in both branches. -/
def updateStatus (jobs : List JobRow) (jobId : Nat) (st : JobStatus)
    (err : Option (List Char)) : List JobRow :=
  if st = JobStatus.completed ∨ st = JobStatus.failed then
    jobs.map fun r =>
      if r.jobId = jobId then { r with status := st, completedAt := true, errorMessage := err }
      else r
  else
    jobs.map fun r =>
      if r.jobId = jobId then { r with status := st, errorMessage := err }
      else r

/-- `if job_id:` guard around `self._update_job_progress(...)` in the embedder
(job ids issued by the database are positive, so truthiness is `isSome`). -/
def jobProgressEmbed (db : DB) (jobId : Option Nat) (tp pp ce : Option Nat) : DB :=
  match jobId with
  | none => db
  | some j => { db with jobs := updateJobProgressEmbed db.jobs j tp pp ce }

/-- `if job_id:` guard around `self._update_job_progress(...)` in the summarizer. -/
def jobProgressSumm (db : DB) (jobId : Option Nat) (ms : Option Nat) (rd : Option Bool) : DB :=
  match jobId with
  | none => db
  | some j => { db with jobs := updateJobProgressSumm db.jobs j ms rd }

/-! ## `BillRAGEmbedder.embed_bill` and `_embed_and_store_batch`
    (src/backend/bill_rag_embedder.py, lines 49-217) -/

/-- One row of the bulk `INSERT ... ON CONFLICT (congress, bill_type,
bill_number, chunk_index) DO UPDATE` statement; the embedding oracle stands for
`embed_texts_batch` applied pointwise (order-preserving by the API contract). -/
def rowOfChunk (embedO : List Char → List Char) (b : BillId) (c : Chunk) : ChunkRow :=
  { bill := b, chunkIndex := c.chunkIndex, text := c.text, embedding := embedO c.text,
    pageStart := c.pageStart, pageEnd := c.pageEnd, bucketId := some c.bucketId }

/-- Upsert keyed on `(bill, chunk_index)`; the conflict branch updates text,
embedding, page range and bucket. -/
def upsertChunkRow (rows : List ChunkRow) (r : ChunkRow) : List ChunkRow :=
  if rows.any (fun x => decide (x.bill = r.bill ∧ x.chunkIndex = r.chunkIndex)) then
    rows.map fun x =>
      if x.bill = r.bill ∧ x.chunkIndex = r.chunkIndex then
        { x with text := r.text, embedding := r.embedding, pageStart := r.pageStart,
                 pageEnd := r.pageEnd, bucketId := r.bucketId }
      else x
  else rows ++ [r]

/-- `BillRAGEmbedder._embed_and_store_batch` (no-op on an empty batch). -/
def storeBatch (embedO : List Char → List Char) (db : DB) (b : BillId)
    (batch : List Chunk) : DB :=
  { db with chunks := batch.foldl (fun acc c => upsertChunkRow acc (rowOfChunk embedO b c)) db.chunks }

/-- The chunk-consuming loop of `embed_bill`: fill a buffer of `batchSize`
chunks, flush with a progress update per full batch, and flush the final
partial batch (if any) with `pages_processed = total_pages`. -/
def embedBillLoop (embedO : List Char → List Char) (b : BillId) (jobId : Option Nat)
    (totalPages batchSize : Nat) :
    List Chunk → DB → List Chunk → Nat → Nat → DB
  | [], db, buf, done, _ =>
    if buf = [] then db
    else
      let db1 := storeBatch embedO db b buf
      jobProgressEmbed db1 jobId none (some totalPages) (some (done + buf.length))
  | c :: rest, db, buf, done, pmax =>
    let buf1 := buf ++ [c]
    let pmax1 := max pmax c.pageEnd
    if batchSize ≤ buf1.length then
      let db1 := storeBatch embedO db b buf1
      let db2 := jobProgressEmbed db1 jobId none (some pmax1) (some (done + buf1.length))
      embedBillLoop embedO b jobId totalPages batchSize rest db2 [] (done + buf1.length) pmax1
    else embedBillLoop embedO b jobId totalPages batchSize rest db buf1 done pmax1

/-- `BillRAGEmbedder.embed_bill`: skip when already embedded (unless forced),
delete-then-reinsert when forced; `texts` stands for the downloaded PDF's
cleaned page texts. -/
def embedBill (embedO : List Char → List Char) (db : DB) (b : BillId)
    (texts : List (List Char)) (force : Bool) (batchSize : Nat) (jobId : Option Nat) : DB :=
  if force = false ∧ 0 < (chunkRowsOf db b).length then db
  else
    let db1 :=
      if force then { db with chunks := db.chunks.filter (fun r => decide (¬ r.bill = b)) }
      else db
    let totalPages := texts.length
    let db2 := jobProgressEmbed db1 jobId (some totalPages) none none
    match processPdfStreaming defaultCfg texts with
    | none => db2
    | some cs => embedBillLoop embedO b jobId totalPages batchSize cs db2 [] 0 0

/-! ## `HierarchicalSummarizer` map and reduce phases
    (src/backend/hierarchical_summarizer.py, lines 20-229) -/

/-- Minimum of a `Nat` list (SQL `MIN`; 0 only on the empty list, unused). -/
def natMinL : List Nat → Nat
  | [] => 0
  | a :: t => t.foldl min a

/-- Maximum of a `Nat` list (SQL `MAX`). -/
def natMaxL : List Nat → Nat
  | [] => 0
  | a :: t => t.foldl max a

/-- Rows of one bucket:
`WHERE ... AND bucket_id IS NOT NULL` grouped by `bucket_id`. -/
def chunkRowsInBucket (db : DB) (b : BillId) (bid : Nat) : List ChunkRow :=
  db.chunks.filter (fun r => decide (r.bill = b ∧ r.bucketId = some bid))

/-- The distinct non-null bucket ids of a bill, ascending
(`GROUP BY bucket_id ORDER BY bucket_id`). -/
def bucketIdsOf (db : DB) (b : BillId) : List Nat :=
  let present := (chunkRowsOf db b).filterMap (fun r => r.bucketId)
  (List.range (natMaxL present + 1)).filter (fun i => present.contains i)

/-- One `buckets_data` record: `(bucket_id, MIN(page_start), MAX(page_end),
array_agg(text ORDER BY chunk_index))`. -/
def bucketData (db : DB) (b : BillId) (bid : Nat) : Nat × Nat × List (List Char) :=
  let rows := chunkRowsInBucket db b bid
  (natMinL (rows.map (fun r => r.pageStart)), natMaxL (rows.map (fun r => r.pageEnd)),
    (sortBy (fun r1 r2 => decide (r1.chunkIndex ≤ r2.chunkIndex)) rows).map (fun r => r.text))

/-- The map-phase prompt (literal boilerplate abbreviated; its content is
opaque to every claim). -/
def bucketPrompt (ps pe : Nat) (context : List Char) : List Char :=
  "Summarize this section of a legislative bill (pages ".data ++ (Nat.repr ps).data
    ++ "-".data ++ (Nat.repr pe).data ++ ").\nText:\n".data ++ context

/-- The reduce-phase prompt (literal boilerplate abbreviated). -/
def finalPrompt (context : List Char) : List Char :=
  "Create a comprehensive summary of this legislative bill based on the section summaries below.\nSource summaries:\n".data ++ context

/-- Upsert keyed on `(bill, bucket_id)` into `bill_chunk_summaries`. -/
def upsertBucketSummary (rows : List BucketSummaryRow) (r : BucketSummaryRow) : List BucketSummaryRow :=
  if rows.any (fun x => decide (x.bill = r.bill ∧ x.bucketId = r.bucketId)) then
    rows.map fun x =>
      if x.bill = r.bill ∧ x.bucketId = r.bucketId then
        { x with summaryText := r.summaryText, keyProvisions := r.keyProvisions,
                 financialImpact := r.financialImpact, pageStart := r.pageStart, pageEnd := r.pageEnd }
      else x
  else rows ++ [r]

/-- One iteration of the map-phase bucket loop (`i` is the `enumerate` index).
A `none` from the generation oracle models the caught per-bucket exception:
log and continue, skipping both the write and the progress update. -/
def mapBucketStep (genO : List Char → Option (List Char)) (b : BillId) (jobId : Option Nat)
    (db : DB) (i : Nat) (d : Nat × Nat × Nat × List (List Char)) : DB :=
  let context := joinSep "\n\n".data d.2.2.2
  let context2 :=
    if 100000 < context.length then context.take 100000 ++ "\n\n[... content truncated ...]".data
    else context
  match genO (bucketPrompt d.2.1 d.2.2.1 context2) with
  | none => db
  | some summaryText =>
    let row : BucketSummaryRow :=
      { bill := b, bucketId := d.1, pageStart := d.2.1, pageEnd := d.2.2.1,
        summaryText := summaryText, keyProvisions := extractProvisions summaryText,
        financialImpact := extractFinancialImpact summaryText }
    let db1 := { db with bucketSummaries := upsertBucketSummary db.bucketSummaries row }
    jobProgressSumm db1 jobId (some (i + 1)) none

/-- The `for i, bucket in enumerate(buckets_data)` loop. -/
def mapBucketsLoop (genO : List Char → Option (List Char)) (b : BillId) (jobId : Option Nat) :
    List (Nat × Nat × Nat × List (List Char)) → Nat → DB → DB
  | [], _, db => db
  | d :: rest, i, db => mapBucketsLoop genO b jobId rest (i + 1) (mapBucketStep genO b jobId db i d)

/-- `HierarchicalSummarizer.generate_bucket_summaries` (map phase): a no-op
returning normally when the bill has no chunks with a bucket id. -/
def generateBucketSummaries (genO : List Char → Option (List Char)) (db : DB) (b : BillId)
    (jobId : Option Nat) : DB :=
  let bucketsData := (bucketIdsOf db b).map (fun bid => (bid, bucketData db b bid))
  if bucketsData = [] then db
  else mapBucketsLoop genO b jobId bucketsData 0 db

/-- `SELECT ... FROM bill_chunk_summaries WHERE ... ORDER BY bucket_id`. -/
def bucketSummariesOf (db : DB) (b : BillId) : List BucketSummaryRow :=
  sortBy (fun r1 r2 => decide (r1.bucketId ≤ r2.bucketId))
    (db.bucketSummaries.filter (fun r => decide (r.bill = b)))

/-- The message of the exception raised by the reduce phase on a bill with no
bucket summaries. -/
def noBucketSummariesMsg : List Char :=
  "No bucket summaries found - cannot generate final summary".data

/-- Upsert keyed on the bill id into `bill_summaries`. -/
def upsertBillSummary (rows : List BillSummaryRow) (r : BillSummaryRow) : List BillSummaryRow :=
  if rows.any (fun x => decide (x.bill = r.bill)) then
    rows.map fun x => if x.bill = r.bill then { x with summary := r.summary } else x
  else rows ++ [r]

/-- `## Pages X-Y` header over one bucket summary in the reduce-phase context. -/
def summaryHeader (ps pe : Nat) : List Char :=
  "## Pages ".data ++ (Nat.repr ps).data ++ "-".data ++ (Nat.repr pe).data ++ "\n".data

/-- `HierarchicalSummarizer.generate_final_summary` (reduce phase).  The second
component is the raised exception (`none` = returned normally); the first is
the database as left behind. -/
def generateFinalSummary (genO : List Char → Option (List Char)) (db : DB) (b : BillId)
    (jobId : Option Nat) : DB × Option (List Char) :=
  let sums := bucketSummariesOf db b
  if sums = [] then (db, some noBucketSummariesMsg)
  else
    let context := joinSep "\n\n".data
      (sums.map fun r => summaryHeader r.pageStart r.pageEnd ++ r.summaryText)
    let context2 :=
      if 150000 < context.length then
        context.take 75000 ++ "\n\n[... middle sections truncated ...]\n\n".data
          ++ context.drop (context.length - 75000)
      else context
    match genO (finalPrompt context2) with
    | none => (db, some "final summary generation failed".data)
    | some finalText =>
      let data : SummaryData :=
        { tldr := finalText, keyPoints := extractKeyPoints finalText,
          financialInfo := extractFinancialSection finalText,
          importance := estimateImportance finalText,
          readingTime := estimateReadingTime finalText, cached := false }
      let db1 := { db with billSummaries := upsertBillSummary db.billSummaries { bill := b, summary := data } }
      let db2 := jobProgressSumm db1 jobId none (some true)
      (db2, none)

/-! ## `BillRAGEmbedder.query_bill`
    (src/backend/bill_rag_embedder.py, lines 253-331) -/

/-- The fixed sentinel answer for a bill with no retrieved chunks. -/
def notEmbeddedMsg : List Char :=
  "This bill has not been embedded yet. Please embed it first.".data

/-- `pp. X-Y` citation label (`page unknown` when either page is falsy/NULL). -/
def pageRangeLabel (ps pe : Nat) : List Char :=
  if ps ≠ 0 ∧ pe ≠ 0 then
    "pp. ".data ++ (Nat.repr ps).data ++ "-".data ++ (Nat.repr pe).data
  else "page unknown".data

/-- The RAG prompt (literal boilerplate abbreviated; opaque to every claim). -/
def ragPrompt (context question : List Char) : List Char :=
  "You are an assistant answering questions about legislative text.\n[CONTEXT]\n".data
    ++ context ++ "\n[QUESTION]\n".data ++ question ++ "\n[ANSWER WITH CITATIONS]".data

/-- `BillRAGEmbedder.query_bill`: embed the question, retrieve the `top_k`
nearest chunks of the bill (`ORDER BY embedding <=> $1 LIMIT $5`, the float
distance abstracted by the `dist` oracle), answer from the sentinel if no row
came back, otherwise generate from the cited context.  `none` models a raised
exception (embedding or generation failure). -/
def queryBill (embedO : List Char → Option (List Char)) (dist : List Char → List Char → Nat)
    (genO : List Char → Option (List Char)) (db : DB) (b : BillId)
    (question : List Char) (topK : Nat) : Option (List Char) :=
  match embedO question with
  | none => none
  | some qEmb =>
    let rows := (sortBy (fun r1 r2 => decide (dist qEmb r1.embedding ≤ dist qEmb r2.embedding))
      (chunkRowsOf db b)).take topK
    if rows = [] then some notEmbeddedMsg
    else
      let context := joinSep "\n\n---\n\n".data
        (rows.map fun r => '[' :: (pageRangeLabel r.pageStart r.pageEnd ++ ']' :: '\n' :: r.text))
      match genO (ragPrompt context question) with
      | none => none
      | some ans => some ans



/-! ## Concrete instances used by witnesses and counterexamples -/

/-- A sample bill identifier. -/
def sampleBill : BillId := { congress := 119, billType := "hr".data, billNumber := "1".data }

/-- A job row already in the terminal `completed` state. -/
def sampleCompletedJob : JobRow :=
  { jobId := 1, bill := sampleBill, status := JobStatus.completed, totalPages := none,
    pagesProcessed := none, chunksEmbedded := none, mapSummariesDone := none,
    reduceDone := none, errorMessage := none, completedAt := true }

/-- The empty database. -/
def emptyDB : DB := { chunks := [], bucketSummaries := [], billSummaries := [], jobs := [] }

/-- A buffer of exactly the target length with a sentence boundary inside the
search window (position 3398 is followed by a space): the code breaks at the
full length 3500, not at the sentence boundary 3400 the claim requires for
buffers of length at least the target. -/
def boundaryBuffer : List Char :=
  List.replicate 3398 'a' ++ ['.', ' '] ++ List.replicate 100 'a'

/-- First page of the three-page counterexample document: 3497 characters. -/
def longPage : List Char := List.replicate 3497 'a'

/-- A page whose buffer, `" " + text`, is 3601 characters and breaks exactly at
its end (sentence boundary at the very end), leaving a 600-character overlap
that is flushed as a second, wholly redundant chunk. -/
def overlapPage : List Char := List.replicate 3598 'a' ++ ['.', ' ']

/-- Identity embedding oracle for concrete runs. -/
def sampleEmbed : List Char → List Char := fun t => t

/-- A pre-existing chunk row for `sampleBill` (chunk_index 0). -/
def sampleChunkRow : ChunkRow :=
  { bill := sampleBill, chunkIndex := 0, text := ['x'], embedding := ['x'],
    pageStart := 1, pageEnd := 1, bucketId := some 0 }

/-- A database that already holds one chunk for `sampleBill`. -/
def sampleDB4 : DB :=
  { chunks := [sampleChunkRow], bucketSummaries := [], billSummaries := [], jobs := [] }

/-- The single chunk produced by streaming the one-page document `[['a']]`. -/
def sampleChunk4 : Chunk :=
  { text := ['a'], pageStart := 1, pageEnd := 1, bucketId := 0,
    charStart := 0, charEnd := 2, chunkIndex := 0 }

/-! ## Basic lemmas about the break-point helpers -/

theorem sentenceEnds_bounds :
    ∀ (l : List Char) (i e : Nat), e ∈ sentenceEnds l i → i + 2 ≤ e ∧ e ≤ i + l.length := by
  intro l
  induction l with
  | nil => intro i e h; simp [sentenceEnds] at h
  | cons c1 t ih =>
    intro i e h
    cases t with
    | nil => simp [sentenceEnds] at h
    | cons c2 rest =>
      rw [sentenceEnds] at h
      by_cases hp : sentPunct c1 ∧ pySpace c2
      · rw [if_pos hp] at h
        rcases List.mem_cons.mp h with h1 | h2
        · subst h1
          refine ⟨by omega, ?_⟩
          have := (rest.takeWhile_sublist pySpace).length_le
          simp only [List.length_cons]
          omega
        · have := ih (i + 1) e h2
          simp only [List.length_cons] at this ⊢
          omega
      · rw [if_neg hp] at h
        have := ih (i + 1) e h
        simp only [List.length_cons] at this ⊢
        omega

theorem minByStep_cases (key : Nat → Nat) (acc : Option Nat) (a : Nat) :
    ∃ z, minByStep key acc a = some z ∧ (z = a ∨ acc = some z) := by
  match acc with
  | none => exact ⟨a, rfl, Or.inl rfl⟩
  | some b =>
    by_cases hk : key a < key b
    · exact ⟨a, by simp [minByStep, hk], Or.inl rfl⟩
    · exact ⟨b, by simp [minByStep, hk], Or.inr rfl⟩

theorem minByFold_mem (key : Nat → Nat) :
    ∀ (l : List Nat) (acc : Option Nat) (x : Nat),
      l.foldl (minByStep key) acc = some x → x ∈ l ∨ acc = some x := by
  intro l
  induction l with
  | nil => intro acc x h; simp at h; right; rw [h]
  | cons a t ih =>
    intro acc x h
    simp only [List.foldl_cons] at h
    rcases ih (minByStep key acc a) x h with h1 | h2
    · left; exact List.mem_cons_of_mem a h1
    · obtain ⟨z, hz, hcase⟩ := minByStep_cases key acc a
      rw [hz] at h2
      have hzx : z = x := by injection h2
      rcases hcase with h3 | h4
      · left; rw [← hzx, h3]; exact List.mem_cons_self a t
      · right; rw [← hzx]; exact h4

theorem minByFirst_mem (key : Nat → Nat) (l : List Nat) (x : Nat)
    (h : minByFirst key l = some x) : x ∈ l := by
  rcases minByFold_mem key l none x h with h1 | h2
  · exact h1
  · simp at h2

theorem minByStep_spec (key : Nat → Nat) (acc : Option Nat) (a : Nat) :
    ∃ z, minByStep key acc a = some z ∧ key z ≤ key a ∧
      ∀ b, acc = some b → key z ≤ key b := by
  match acc with
  | none => exact ⟨a, rfl, Nat.le_refl _, fun b hb => by simp at hb⟩
  | some b =>
    by_cases hk : key a < key b
    · exact ⟨a, by simp [minByStep, hk], Nat.le_refl _,
        fun c hc => by simp at hc; rw [← hc]; omega⟩
    · exact ⟨b, by simp [minByStep, hk], by omega,
        fun c hc => by simp at hc; rw [← hc]⟩

theorem minByFold_min (key : Nat → Nat) :
    ∀ (l : List Nat) (acc : Option Nat) (x : Nat),
      l.foldl (minByStep key) acc = some x →
      (∀ y ∈ l, key x ≤ key y) ∧ (∀ b, acc = some b → key x ≤ key b) := by
  intro l
  induction l with
  | nil =>
    intro acc x h; simp at h
    exact ⟨by simp, fun b hb => by rw [h] at hb; simp at hb; rw [hb]⟩
  | cons a t ih =>
    intro acc x h
    simp only [List.foldl_cons] at h
    have hr := ih (minByStep key acc a) x h
    obtain ⟨z, hz, hza, hzacc⟩ := minByStep_spec key acc a
    have hxz : key x ≤ key z := hr.2 z hz
    refine ⟨fun y hy => ?_, fun b hb => ?_⟩
    · rcases List.mem_cons.mp hy with h1 | h2
      · rw [h1]; omega
      · exact hr.1 y h2
    · have := hzacc b hb; omega

theorem minByFirst_min (key : Nat → Nat) (l : List Nat) (x : Nat)
    (h : minByFirst key l = some x) : ∀ y ∈ l, key x ≤ key y :=
  (minByFold_min key l none x h).1

theorem findSpaceAux_spec :
    ∀ (l : List Char) (i p : Nat), findSpaceAux l i = some p →
      i ≤ p ∧ p - i < l.length ∧ l.get? (p - i) = some ' ' ∧
        ∀ q, i ≤ q → q < p → l.get? (q - i) ≠ some ' ' := by
  intro l
  induction l with
  | nil => intro i p h; simp [findSpaceAux] at h
  | cons c rest ih =>
    intro i p h
    rw [findSpaceAux] at h
    by_cases hc : c = ' '
    · rw [if_pos hc] at h
      have hip : i = p := by injection h
      subst hip
      refine ⟨Nat.le_refl _, by simp, ?_, ?_⟩
      · simp [hc]
      · intro q hq1 hq2; omega
    · rw [if_neg hc] at h
      obtain ⟨h1, h2, h3, h4⟩ := ih (i + 1) p h
      refine ⟨by omega, ?_, ?_, ?_⟩
      · simp only [List.length_cons]; omega
      · have : p - i = (p - (i + 1)) + 1 := by omega
        rw [this]; simpa using h3
      · intro q hq1 hq2
        by_cases hqi : q = i
        · subst hqi
          simp only [Nat.sub_self, List.get?]
          intro hcon
          exact hc (by injection hcon)
        · have : q - i = (q - (i + 1)) + 1 := by omega
          rw [this]
          simpa using h4 q (by omega) hq2

theorem findSpaceFrom_spec (text : List Char) (start p : Nat)
    (h : findSpaceFrom text start = some p) :
    start ≤ p ∧ p < text.length := by
  obtain ⟨h1, h2, _, _⟩ := findSpaceAux_spec (text.drop start) start p h
  rw [List.length_drop] at h2
  omega

/-- Lower and upper bounds on `_find_break_point` for buffers at least as long
as the target: the break point lies in `[target - 198, text.length]` (any
sentence-boundary match ends at least two characters into the ±200 window). -/
theorem findBreakPoint_bounds (text : List Char) (target : Nat)
    (h1 : 799 ≤ target) (h2 : target ≤ text.length) :
    target - 198 ≤ findBreakPoint text target ∧ findBreakPoint text target ≤ text.length := by
  by_cases hlen : text.length ≤ target
  · rw [findBreakPoint, if_pos hlen]
    omega
  · rw [findBreakPoint, if_neg hlen]
    have hse1 : min text.length (target + 200) ≤ text.length := Nat.min_le_left _ _
    have hse2 : target ≤ min text.length (target + 200) := Nat.le_min.mpr ⟨by omega, by omega⟩
    have hreg : ((text.take (min text.length (target + 200))).drop (target - 200)).length
        = min text.length (target + 200) - (target - 200) := by
      rw [List.length_drop, List.length_take]
      omega
    cases hm : minByFirst (fun x => distN (target - 200 + x) target)
        (sentenceEnds ((text.take (min text.length (target + 200))).drop (target - 200)) 0) with
    | some c =>
      simp only [hm]
      have hmem := minByFirst_mem _ _ _ hm
      have hb := sentenceEnds_bounds _ _ _ hmem
      rw [hreg] at hb
      omega
    | none =>
      simp only [hm]
      rw [if_pos (by omega : target < text.length)]
      cases hf : findSpaceFrom text target with
      | some p =>
        simp only [hf]
        have := findSpaceFrom_spec text target p hf
        omega
      | none => simp only [hf]; omega

/-! ## Termination of the inner emission loop (configured parameters) -/

theorem emitChunk_buffer (cfg : Cfg) (s : ChunkState) :
    (emitChunk cfg s).1.buffer
      = s.buffer.drop (findBreakPoint s.buffer cfg.chunkChars - cfg.overlapChars) := rfl

/-- With the configured parameters each loop iteration strictly shrinks the
buffer: the break point is at least 3302 > 600, so at least one character
leaves the front of the buffer. -/
theorem emitChunk_shrinks (s : ChunkState) (h : 3500 ≤ s.buffer.length) :
    (emitChunk defaultCfg s).1.buffer.length < s.buffer.length := by
  rw [emitChunk_buffer, List.length_drop]
  have hb := findBreakPoint_bounds s.buffer 3500 (by omega) h
  show s.buffer.length - (findBreakPoint s.buffer 3500 - 600) < s.buffer.length
  omega

theorem emitLoop_total :
    ∀ (fuel : Nat) (s : ChunkState), s.buffer.length ≤ fuel →
      (emitLoop defaultCfg fuel s).isSome := by
  intro fuel
  induction fuel with
  | zero =>
    intro s h
    rw [emitLoop, if_pos (by simp [defaultCfg]; omega)]
    rfl
  | succ fuel ih =>
    intro s h
    rw [emitLoop]
    by_cases hlen : s.buffer.length < defaultCfg.chunkChars
    · rw [if_pos hlen]; rfl
    · rw [if_neg hlen]
      have hge : 3500 ≤ s.buffer.length := by
        simpa [defaultCfg] using Nat.le_of_not_lt hlen
      have hs := emitChunk_shrinks s hge
      have hrec := ih (emitChunk defaultCfg s).1 (by omega)
      obtain ⟨⟨cs, s3⟩, hr⟩ := Option.isSome_iff_exists.mp hrec
      simp only [hr]
      rfl

theorem chunkPages_total :
    ∀ (pages : List (Nat × List Char)) (s : ChunkState),
      (chunkPages defaultCfg pages s).isSome := by
  intro pages
  induction pages with
  | nil => intro s; rfl
  | cons p rest ih =>
    intro s
    obtain ⟨pn, t⟩ := p
    rw [chunkPages]
    have h1 := emitLoop_total (feedPage s pn t).buffer.length (feedPage s pn t) (Nat.le_refl _)
    obtain ⟨⟨cs, s2⟩, hr⟩ := Option.isSome_iff_exists.mp h1
    simp only [hr]
    have h2 := ih s2
    obtain ⟨⟨cs2, s3⟩, hr2⟩ := Option.isSome_iff_exists.mp h2
    simp only [hr2]
    rfl

/-! ## Structural invariants of the chunk stream -/

theorem natRange_append : ∀ (m a n : Nat), natRange a m ++ natRange (a + m) n = natRange a (m + n) := by
  intro m
  induction m with
  | zero => intro a n; simp [natRange]
  | succ m ih =>
    intro a n
    have hn : m + 1 + n = (m + n) + 1 := by omega
    rw [hn]
    show (a :: natRange (a + 1) m) ++ natRange (a + (m + 1)) n = a :: natRange (a + 1) (m + n)
    rw [List.cons_append]
    have ha : a + (m + 1) = (a + 1) + m := by omega
    rw [ha, ih (a + 1) n]

theorem emitChunk_spec (cfg : Cfg) (s : ChunkState) :
    (emitChunk cfg s).1.pageEnd = s.pageEnd ∧
    ((emitChunk cfg s).1.pageStart = s.pageStart ∨ (emitChunk cfg s).1.pageStart = s.pageEnd) ∧
    (emitChunk cfg s).1.chunkIndex = s.chunkIndex + (emitChunk cfg s).2.length ∧
    ((emitChunk cfg s).2 = [] ∨
      ∃ c, (emitChunk cfg s).2 = [c] ∧ c.pageStart = s.pageStart ∧ c.pageEnd = s.pageEnd ∧
        c.chunkIndex = s.chunkIndex ∧ c.bucketId = (s.pageStart - 1) / cfg.bucketSize) := by
  have hpe : (emitChunk cfg s).1.pageEnd = s.pageEnd := rfl
  have hci : (emitChunk cfg s).1.chunkIndex = s.chunkIndex + (emitChunk cfg s).2.length := rfl
  have hpsor : (emitChunk cfg s).1.pageStart = s.pageStart ∨ (emitChunk cfg s).1.pageStart = s.pageEnd := by
    by_cases h2 : (s.buffer.drop (findBreakPoint s.buffer cfg.chunkChars - cfg.overlapChars)).length < cfg.overlapChars
    · right
      show (if (s.buffer.drop (findBreakPoint s.buffer cfg.chunkChars - cfg.overlapChars)).length < cfg.overlapChars
            then s.pageEnd else s.pageStart) = s.pageEnd
      rw [if_pos h2]
    · left
      show (if (s.buffer.drop (findBreakPoint s.buffer cfg.chunkChars - cfg.overlapChars)).length < cfg.overlapChars
            then s.pageEnd else s.pageStart) = s.pageStart
      rw [if_neg h2]
  refine ⟨hpe, hpsor, hci, ?_⟩
  by_cases h : pyStrip (s.buffer.take (findBreakPoint s.buffer cfg.chunkChars)) = []
  · left
    show (if pyStrip (s.buffer.take (findBreakPoint s.buffer cfg.chunkChars)) = [] then ([] : List Chunk)
          else [{ text := pyStrip (s.buffer.take (findBreakPoint s.buffer cfg.chunkChars)),
                  pageStart := s.pageStart, pageEnd := s.pageEnd,
                  bucketId := (s.pageStart - 1) / cfg.bucketSize,
                  charStart := s.charPos,
                  charEnd := s.charPos + (pyStrip (s.buffer.take (findBreakPoint s.buffer cfg.chunkChars))).length,
                  chunkIndex := s.chunkIndex }]) = []
    rw [if_pos h]
  · right
    refine ⟨{ text := pyStrip (s.buffer.take (findBreakPoint s.buffer cfg.chunkChars)),
              pageStart := s.pageStart, pageEnd := s.pageEnd,
              bucketId := (s.pageStart - 1) / cfg.bucketSize,
              charStart := s.charPos,
              charEnd := s.charPos + (pyStrip (s.buffer.take (findBreakPoint s.buffer cfg.chunkChars))).length,
              chunkIndex := s.chunkIndex }, ?_, rfl, rfl, rfl, rfl⟩
    show (if pyStrip (s.buffer.take (findBreakPoint s.buffer cfg.chunkChars)) = [] then ([] : List Chunk)
          else [{ text := pyStrip (s.buffer.take (findBreakPoint s.buffer cfg.chunkChars)),
                  pageStart := s.pageStart, pageEnd := s.pageEnd,
                  bucketId := (s.pageStart - 1) / cfg.bucketSize,
                  charStart := s.charPos,
                  charEnd := s.charPos + (pyStrip (s.buffer.take (findBreakPoint s.buffer cfg.chunkChars))).length,
                  chunkIndex := s.chunkIndex }]) = _
    rw [if_neg h]

theorem emitLoop_inv (cfg : Cfg) :
    ∀ (fuel : Nat) (s : ChunkState) (cs : List Chunk) (s3 : ChunkState),
      emitLoop cfg fuel s = some (cs, s3) → s.pageStart ≤ s.pageEnd →
      s3.pageEnd = s.pageEnd ∧ s.pageStart ≤ s3.pageStart ∧ s3.pageStart ≤ s.pageEnd ∧
      s3.chunkIndex = s.chunkIndex + cs.length ∧
      cs.map (fun c => c.chunkIndex) = natRange s.chunkIndex cs.length ∧
      (∀ c ∈ cs, c.bucketId = (c.pageStart - 1) / cfg.bucketSize ∧
        s.pageStart ≤ c.pageStart ∧ c.pageStart ≤ s3.pageStart) ∧
      List.Pairwise (fun a b => a.pageStart ≤ b.pageStart) cs := by
  intro fuel
  induction fuel with
  | zero =>
    intro s cs s3 h hps
    rw [emitLoop] at h
    by_cases hlen : s.buffer.length < cfg.chunkChars
    · rw [if_pos hlen] at h
      simp only [Option.some.injEq, Prod.mk.injEq] at h
      obtain ⟨h1, h2⟩ := h
      subst h1; subst h2
      exact ⟨rfl, Nat.le_refl _, hps, by simp, by simp [natRange], by simp, List.Pairwise.nil⟩
    · rw [if_neg hlen] at h; exact absurd h (by simp)
  | succ fuel ih =>
    intro s cs s3 h hps
    rw [emitLoop] at h
    by_cases hlen : s.buffer.length < cfg.chunkChars
    · rw [if_pos hlen] at h
      simp only [Option.some.injEq, Prod.mk.injEq] at h
      obtain ⟨h1, h2⟩ := h
      subst h1; subst h2
      exact ⟨rfl, Nat.le_refl _, hps, by simp, by simp [natRange], by simp, List.Pairwise.nil⟩
    · rw [if_neg hlen] at h
      cases hrec : emitLoop cfg fuel (emitChunk cfg s).1 with
      | none =>
        simp only [hrec] at h
        exact absurd h (by simp)
      | some r2 =>
        obtain ⟨cs2, s4⟩ := r2
        simp only [hrec, Option.some.injEq, Prod.mk.injEq] at h
        obtain ⟨h1, h2⟩ := h
        subst h2
        obtain ⟨he1, he2, he3, he4⟩ := emitChunk_spec cfg s
        have hps2 : (emitChunk cfg s).1.pageStart ≤ (emitChunk cfg s).1.pageEnd := by
          rw [he1]; rcases he2 with h | h <;> rw [h] <;> omega
        obtain ⟨g1, g2, g3, g4, g5, g6, g7⟩ := ih (emitChunk cfg s).1 cs2 s4 hrec hps2
        have hnext_ps1 : s.pageStart ≤ (emitChunk cfg s).1.pageStart := by
          rcases he2 with h | h <;> rw [h] <;> omega
        have hnext_ps2 : (emitChunk cfg s).1.pageStart ≤ s.pageEnd := by
          rcases he2 with h | h <;> rw [h] <;> omega
        rcases he4 with hem | ⟨c0, hem, hc1, hc2, hc3, hc4⟩
        · rw [hem] at h1
          simp only [List.nil_append] at h1
          subst h1
          rw [hem] at he3
          simp only [List.length_nil, Nat.add_zero] at he3
          refine ⟨by rw [g1, he1], by omega, by rw [he1] at g3; exact g3, by omega, ?_, ?_, g7⟩
          · rw [g5, he3]
          · intro c hc
            obtain ⟨k1, k2, k3⟩ := g6 c hc
            exact ⟨k1, by omega, k3⟩
        · rw [hem] at h1
          subst h1
          rw [hem] at he3
          simp only [List.length_cons, List.length_nil] at he3
          have hpe : s4.pageEnd = s.pageEnd := by rw [g1, he1]
          have hps4 : s4.pageStart ≤ s.pageEnd := by rw [he1] at g3; exact g3
          refine ⟨hpe, by omega, hps4, ?_, ?_, ?_, ?_⟩
          · simp only [List.length_append, List.length_cons, List.length_nil]
            omega
          · simp only [List.map_append, List.map_cons, List.map_nil, List.length_append,
              List.length_cons, List.length_nil]
            rw [g5, hc3, he3]
            have : natRange s.chunkIndex (0 + 1 + cs2.length)
                = natRange s.chunkIndex 1 ++ natRange (s.chunkIndex + 1) cs2.length := by
              rw [natRange_append 1 s.chunkIndex cs2.length]
            rw [Nat.zero_add] at this
            rw [this]
            simp [natRange]
          · intro c hc
            rcases List.mem_append.mp hc with hmem | hmem
            · rcases List.mem_singleton.mp hmem with rfl
              refine ⟨by rw [hc4, hc1], by rw [hc1], ?_⟩
              rw [hc1]; omega
            · obtain ⟨k1, k2, k3⟩ := g6 c hmem
              exact ⟨k1, by omega, k3⟩
          · rw [List.pairwise_append]
            refine ⟨by simp, g7, ?_⟩
            intro a ha b hb
            rcases List.mem_singleton.mp ha with rfl
            obtain ⟨_, k2, _⟩ := g6 b hb
            rw [hc1]; omega

theorem pagesMono_pagesFrom : ∀ (texts : List (List Char)) (k base : Nat), base ≤ k →
    pagesMono base (pagesFrom k texts) := by
  intro texts
  induction texts with
  | nil => intro k base _; trivial
  | cons t ts ih => intro k base hb; exact ⟨hb, ih (k + 1) k (by omega)⟩

theorem chunkPages_inv (cfg : Cfg) :
    ∀ (pages : List (Nat × List Char)) (s : ChunkState) (cs : List Chunk) (s3 : ChunkState),
      chunkPages cfg pages s = some (cs, s3) → s.pageStart ≤ s.pageEnd → pagesMono s.pageEnd pages →
      s.pageEnd ≤ s3.pageEnd ∧ s.pageStart ≤ s3.pageStart ∧ s3.pageStart ≤ s3.pageEnd ∧
      s3.chunkIndex = s.chunkIndex + cs.length ∧
      cs.map (fun c => c.chunkIndex) = natRange s.chunkIndex cs.length ∧
      (∀ c ∈ cs, c.bucketId = (c.pageStart - 1) / cfg.bucketSize ∧
        s.pageStart ≤ c.pageStart ∧ c.pageStart ≤ s3.pageStart) ∧
      List.Pairwise (fun a b => a.pageStart ≤ b.pageStart) cs := by
  intro pages
  induction pages with
  | nil =>
    intro s cs s3 h hps _
    rw [chunkPages] at h
    simp only [Option.some.injEq, Prod.mk.injEq] at h
    obtain ⟨h1, h2⟩ := h
    subst h1; subst h2
    exact ⟨Nat.le_refl _, Nat.le_refl _, hps, by simp, by simp [natRange], by simp, List.Pairwise.nil⟩
  | cons p rest ih =>
    obtain ⟨pn, t⟩ := p
    intro s cs s3 h hps hmono
    obtain ⟨hbase, hmono2⟩ := hmono
    rw [chunkPages] at h
    cases he : emitLoop cfg (feedPage s pn t).buffer.length (feedPage s pn t) with
    | none => simp only [he] at h; exact absurd h (by simp)
    | some r1 =>
      obtain ⟨cs1, s2⟩ := r1
      simp only [he] at h
      cases hc : chunkPages cfg rest s2 with
      | none => simp only [hc] at h; exact absurd h (by simp)
      | some r2 =>
        obtain ⟨cs2, s4⟩ := r2
        simp only [hc, Option.some.injEq, Prod.mk.injEq] at h
        obtain ⟨h1, h2⟩ := h
        subst h2
        have hfe : (feedPage s pn t).pageEnd = pn := rfl
        have hfc : (feedPage s pn t).chunkIndex = s.chunkIndex := rfl
        have hps1 : (feedPage s pn t).pageStart ≤ (feedPage s pn t).pageEnd := by
          show (if s.buffer = [] then pn else s.pageStart) ≤ pn
          by_cases hb : s.buffer = []
          · rw [if_pos hb]
          · rw [if_neg hb]; omega
        have hs_ps : s.pageStart ≤ (feedPage s pn t).pageStart := by
          show s.pageStart ≤ (if s.buffer = [] then pn else s.pageStart)
          by_cases hb : s.buffer = []
          · rw [if_pos hb]; omega
          · rw [if_neg hb]
        obtain ⟨e1, e2, e3, e4, e5, e6, e7⟩ := emitLoop_inv cfg _ _ _ _ he hps1
        rw [hfe] at e1 e3
        rw [hfc] at e4 e5
        have hps2 : s2.pageStart ≤ s2.pageEnd := by rw [e1]; exact e3
        have hmono2b : pagesMono s2.pageEnd rest := by rw [e1]; exact hmono2
        obtain ⟨i1, i2, i3, i4, i5, i6, i7⟩ := ih s2 cs2 s4 hc hps2 hmono2b
        rw [e1] at i1
        subst h1
        refine ⟨by omega, ?_, i3, ?_, ?_, ?_, ?_⟩
        · omega
        · simp only [List.length_append]; omega
        · simp only [List.map_append]
          rw [e5, i5, e4, List.length_append]
          exact natRange_append cs1.length s.chunkIndex cs2.length
        · intro c hcmem
          rcases List.mem_append.mp hcmem with hmem | hmem
          · obtain ⟨k1, k2, k3⟩ := e6 c hmem
            exact ⟨k1, by omega, by omega⟩
          · obtain ⟨k1, k2, k3⟩ := i6 c hmem
            exact ⟨k1, by omega, k3⟩
        · rw [List.pairwise_append]
          refine ⟨e7, i7, ?_⟩
          intro a ha b hb2
          obtain ⟨_, _, k3⟩ := e6 a ha
          obtain ⟨_, k2, _⟩ := i6 b hb2
          omega



theorem finalFlush_cases (cfg : Cfg) (s : ChunkState) :
    finalFlush cfg s = [] ∨
      finalFlush cfg s = [{ text := pyStrip s.buffer, pageStart := s.pageStart,
                            pageEnd := s.pageEnd, bucketId := (s.pageStart - 1) / cfg.bucketSize,
                            charStart := s.charPos, charEnd := s.charPos + s.buffer.length,
                            chunkIndex := s.chunkIndex }] := by
  by_cases h : pyStrip s.buffer = []
  · left
    show (if pyStrip s.buffer = [] then ([] : List Chunk) else _) = []
    rw [if_pos h]
  · right
    show (if pyStrip s.buffer = [] then ([] : List Chunk) else _) = _
    rw [if_neg h]

theorem chunkPageStream_inv (cfg : Cfg) (pages : List (Nat × List Char)) (cs : List Chunk)
    (hmono : pagesMono 0 pages) (h : chunkPageStream cfg pages = some cs) :
    (∀ c ∈ cs, c.bucketId = (c.pageStart - 1) / cfg.bucketSize) ∧
    List.Pairwise (fun a b => a.pageStart ≤ b.pageStart) cs ∧
    cs.map (fun c => c.chunkIndex) = natRange 0 cs.length := by
  rw [chunkPageStream] at h
  cases hcp : chunkPages cfg pages { buffer := [], pageStart := 0, pageEnd := 0, charPos := 0, chunkIndex := 0 } with
  | none => simp only [hcp] at h; exact absurd h (by simp)
  | some r =>
    obtain ⟨cs0, sf⟩ := r
    simp only [hcp, Option.some.injEq] at h
    obtain ⟨_, _, _, j4, j5, j6, j7⟩ :=
      chunkPages_inv cfg pages _ cs0 sf hcp (Nat.le_refl 0) hmono
    simp only [Nat.zero_add] at j4 j5
    rcases finalFlush_cases cfg sf with hf | hf
    · rw [hf, List.append_nil] at h
      subst h
      exact ⟨fun c hc => (j6 c hc).1, j7, j5⟩
    · rw [hf] at h
      subst h
      refine ⟨?_, ?_, ?_⟩
      · intro c hc
        rcases List.mem_append.mp hc with hm | hm
        · exact (j6 c hm).1
        · rcases List.mem_singleton.mp hm with rfl
          rfl
      · rw [List.pairwise_append]
        refine ⟨j7, by simp, ?_⟩
        intro a ha b hb
        rcases List.mem_singleton.mp hb with rfl
        exact (j6 a ha).2.2
      · simp only [List.map_append, List.map_cons, List.map_nil, List.length_append,
          List.length_cons, List.length_nil]
        rw [j5, j4]
        have := natRange_append cs0.length 0 1
        simp only [Nat.zero_add] at this
        rw [← this]
        simp [natRange]
/-! ## Empty and small documents (chunker edge cases) -/

theorem pyStrip_allspace (l : List Char) (h : ∀ c ∈ l, pySpace c) : pyStrip l = [] := by
  have h1 : l.dropWhile pySpace = [] := List.dropWhile_eq_nil_iff.mpr h
  rw [pyStrip, h1]
  rfl

theorem emitLoop_allspace (cfg : Cfg) :
    ∀ (fuel : Nat) (s : ChunkState) (cs : List Chunk) (s3 : ChunkState),
      emitLoop cfg fuel s = some (cs, s3) → (∀ c ∈ s.buffer, pySpace c) →
      cs = [] ∧ (∀ c ∈ s3.buffer, pySpace c) := by
  intro fuel
  induction fuel with
  | zero =>
    intro s cs s3 h hsp
    rw [emitLoop] at h
    by_cases hlen : s.buffer.length < cfg.chunkChars
    · rw [if_pos hlen] at h
      simp only [Option.some.injEq, Prod.mk.injEq] at h
      obtain ⟨h1, h2⟩ := h
      subst h1; subst h2
      exact ⟨rfl, hsp⟩
    · rw [if_neg hlen] at h
      exact absurd h (by simp)
  | succ fuel ih =>
    intro s cs s3 h hsp
    rw [emitLoop] at h
    by_cases hlen : s.buffer.length < cfg.chunkChars
    · rw [if_pos hlen] at h
      simp only [Option.some.injEq, Prod.mk.injEq] at h
      obtain ⟨h1, h2⟩ := h
      subst h1; subst h2
      exact ⟨rfl, hsp⟩
    · rw [if_neg hlen] at h
      cases hrec : emitLoop cfg fuel (emitChunk cfg s).1 with
      | none =>
        simp only [hrec] at h
        exact absurd h (by simp)
      | some r2 =>
        obtain ⟨cs2, s4⟩ := r2
        simp only [hrec, Option.some.injEq, Prod.mk.injEq] at h
        obtain ⟨h1, h2⟩ := h
        subst h2
        have hsp2 : ∀ c ∈ (emitChunk cfg s).1.buffer, pySpace c := by
          rw [emitChunk_buffer]
          intro c hc
          exact hsp c (List.mem_of_mem_drop hc)
        have hem : (emitChunk cfg s).2 = [] := by
          have htake : ∀ c ∈ s.buffer.take (findBreakPoint s.buffer cfg.chunkChars), pySpace c :=
            fun c hc => hsp c (List.mem_of_mem_take hc)
          have hstrip := pyStrip_allspace _ htake
          show (if pyStrip (s.buffer.take (findBreakPoint s.buffer cfg.chunkChars)) = []
                then ([] : List Chunk) else _) = []
          rw [if_pos hstrip]
        obtain ⟨ha, hb⟩ := ih (emitChunk cfg s).1 cs2 s4 hrec hsp2
        subst ha
        rw [hem] at h1
        exact ⟨h1.symm, hb⟩

theorem pagesFrom_texts : ∀ (texts : List (List Char)) (k : Nat) (p : Nat × List Char),
    p ∈ pagesFrom k texts → p.2 ∈ texts := by
  intro texts
  induction texts with
  | nil => intro k p h; simp [pagesFrom] at h
  | cons t ts ih =>
    intro k p h
    rw [pagesFrom] at h
    rcases List.mem_cons.mp h with h1 | h2
    · subst h1; exact List.mem_cons_self _ _
    · exact List.mem_cons_of_mem _ (ih (k + 1) p h2)

theorem chunkPages_allspace (cfg : Cfg) :
    ∀ (pages : List (Nat × List Char)) (s : ChunkState) (cs : List Chunk) (s3 : ChunkState),
      chunkPages cfg pages s = some (cs, s3) → (∀ p ∈ pages, p.2 = ([] : List Char)) →
      (∀ c ∈ s.buffer, pySpace c) → cs = [] ∧ (∀ c ∈ s3.buffer, pySpace c) := by
  intro pages
  induction pages with
  | nil =>
    intro s cs s3 h _ hsp
    rw [chunkPages] at h
    simp only [Option.some.injEq, Prod.mk.injEq] at h
    obtain ⟨h1, h2⟩ := h
    subst h1; subst h2
    exact ⟨rfl, hsp⟩
  | cons p rest ih =>
    obtain ⟨pn, t⟩ := p
    intro s cs s3 h hempty hsp
    have ht : t = [] := hempty (pn, t) (List.mem_cons_self _ _)
    subst ht
    rw [chunkPages] at h
    cases he : emitLoop cfg (feedPage s pn []).buffer.length (feedPage s pn []) with
    | none => simp only [he] at h; exact absurd h (by simp)
    | some r1 =>
      obtain ⟨cs1, s2⟩ := r1
      simp only [he] at h
      cases hc : chunkPages cfg rest s2 with
      | none => simp only [hc] at h; exact absurd h (by simp)
      | some r2 =>
        obtain ⟨cs2, s4⟩ := r2
        simp only [hc, Option.some.injEq, Prod.mk.injEq] at h
        obtain ⟨h1, h2⟩ := h
        subst h2
        have hsp1 : ∀ c ∈ (feedPage s pn []).buffer, pySpace c := by
          show ∀ c ∈ s.buffer ++ [' '], pySpace c
          intro c hcm
          rcases List.mem_append.mp hcm with hm | hm
          · exact hsp c hm
          · rcases List.mem_singleton.mp hm with rfl
            decide
        obtain ⟨e1, e2⟩ := emitLoop_allspace cfg _ _ _ _ he hsp1
        subst e1
        obtain ⟨i1, i2⟩ := ih s2 cs2 s4 hc (fun q hq => hempty q (List.mem_cons_of_mem _ hq)) e2
        subst i1
        exact ⟨h1.symm, i2⟩

theorem emitLoop_small (cfg : Cfg) (fuel : Nat) (s : ChunkState)
    (h : s.buffer.length < cfg.chunkChars) : emitLoop cfg fuel s = some ([], s) := by
  cases fuel with
  | zero => rw [emitLoop, if_pos h]
  | succ fuel => rw [emitLoop, if_pos h]

theorem chunkPages_small (cfg : Cfg) :
    ∀ (texts : List (List Char)) (k : Nat) (s : ChunkState),
      s.buffer ≠ [] →
      s.buffer.length + (texts.length + (texts.map List.length).sum) < cfg.chunkChars →
      ∃ sf, chunkPages cfg (pagesFrom k texts) s = some ([], sf) ∧
        sf.buffer = s.buffer ++ joinPages texts ∧ sf.pageStart = s.pageStart ∧
        sf.charPos = s.charPos ∧ sf.chunkIndex = s.chunkIndex ∧
        ((texts = [] ∧ sf.pageEnd = s.pageEnd) ∨ (texts ≠ [] ∧ sf.pageEnd = k + texts.length - 1)) := by
  intro texts
  induction texts with
  | nil =>
    intro k s _ _
    refine ⟨s, ?_, by simp [joinPages], rfl, rfl, rfl, Or.inl ⟨rfl, rfl⟩⟩
    rw [pagesFrom, chunkPages]
  | cons t ts ih =>
    intro k s hne hlen
    have hb1 : (feedPage s k t).buffer = s.buffer ++ ' ' :: t := rfl
    have hlen1 : (feedPage s k t).buffer.length < cfg.chunkChars := by
      rw [hb1, List.length_append]
      simp only [List.length_cons, List.map_cons, List.sum_cons, List.length_cons] at hlen ⊢
      omega
    have hne1 : (feedPage s k t).buffer ≠ [] := by
      rw [hb1]
      intro hcon
      exact absurd (List.append_eq_nil.mp hcon).2 (by simp)
    have hbudget : (feedPage s k t).buffer.length + (ts.length + (ts.map List.length).sum) < cfg.chunkChars := by
      rw [hb1, List.length_append]
      simp only [List.length_cons, List.map_cons, List.sum_cons, List.length_cons] at hlen ⊢
      omega
    obtain ⟨sf, hsf, hbuf, hpstart, hcp, hcix, hpe⟩ := ih (k + 1) (feedPage s k t) hne1 hbudget
    refine ⟨sf, ?_, ?_, ?_, hcp, hcix, ?_⟩
    · rw [pagesFrom, chunkPages]
      rw [emitLoop_small cfg _ _ hlen1]
      simp only [hsf]
      rfl
    · rw [hbuf, hb1]
      simp only [joinPages, List.map_cons, List.join_cons]
      rw [List.append_assoc]
    · rw [hpstart]
      show (if s.buffer = [] then k else s.pageStart) = s.pageStart
      rw [if_neg hne]
    · right
      refine ⟨by simp, ?_⟩
      rcases hpe with ⟨hts, hpe2⟩ | ⟨hts, hpe2⟩
      · subst hts
        rw [hpe2]
        show k = k + ([t] : List (List Char)).length - 1
        simp
      · rw [hpe2]
        simp only [List.length_cons]
        have : ts.length ≠ 0 := fun hcon => hts (List.length_eq_zero.mp hcon)
        omega


/-! ## Support lemmas for the claims -/

theorem minByFold_some (key : Nat → Nat) :
    ∀ (l : List Nat) (b : Nat), ∃ x, l.foldl (minByStep key) (some b) = some x := by
  intro l
  induction l with
  | nil => intro b; exact ⟨b, rfl⟩
  | cons a t ih =>
    intro b
    simp only [List.foldl_cons]
    obtain ⟨z, hz, _⟩ := minByStep_cases key (some b) a
    rw [hz]
    exact ih z

theorem minByFirst_ne_nil (key : Nat → Nat) (l : List Nat) (h : l ≠ []) :
    ∃ x, minByFirst key l = some x := by
  match l, h with
  | a :: t, _ =>
    rw [minByFirst, List.foldl_cons]
    exact minByFold_some key t a

theorem natRange_mem : ∀ (n a e : Nat), e ∈ natRange a n → a ≤ e ∧ e < a + n := by
  intro n
  induction n with
  | zero => intro a e h; simp [natRange] at h
  | succ n ih =>
    intro a e h
    rw [natRange] at h
    rcases List.mem_cons.mp h with h1 | h2
    · omega
    · have := ih (a + 1) e h2
      omega

theorem natRange_pairwise_lt : ∀ (n a : Nat), (natRange a n).Pairwise (fun x y => x < y) := by
  intro n
  induction n with
  | zero => intro a; simp [natRange]
  | succ n ih =>
    intro a
    rw [natRange]
    exact List.Pairwise.cons (fun e he => (natRange_mem n (a + 1) e he).1) (ih (a + 1))

theorem jobProgressEmbed_chunks (db : DB) (j : Option Nat) (tp pp ce : Option Nat) :
    (jobProgressEmbed db j tp pp ce).chunks = db.chunks := by
  cases j <;> rfl

theorem embedBillLoop_chunks (embedO : List Char → List Char) (b : BillId) (jobId : Option Nat)
    (totalPages batchSize : Nat) :
    ∀ (l : List Chunk) (db : DB) (buf : List Chunk) (done pmax : Nat),
      (embedBillLoop embedO b jobId totalPages batchSize l db buf done pmax).chunks
        = (buf ++ l).foldl (fun acc c => upsertChunkRow acc (rowOfChunk embedO b c)) db.chunks := by
  intro l
  induction l with
  | nil =>
    intro db buf done pmax
    rw [embedBillLoop]
    by_cases hb : buf = []
    · rw [if_pos hb]; subst hb; rfl
    · rw [if_neg hb, jobProgressEmbed_chunks]
      rw [List.append_nil]
      rfl
  | cons c rest ih =>
    intro db buf done pmax
    rw [embedBillLoop]
    by_cases hfull : batchSize ≤ (buf ++ [c]).length
    · rw [if_pos hfull, ih]
      rw [jobProgressEmbed_chunks]
      show ([] ++ rest).foldl _ (storeBatch embedO db b (buf ++ [c])).chunks = _
      rw [List.nil_append]
      show rest.foldl _ ((buf ++ [c]).foldl _ db.chunks) = _
      rw [← List.foldl_append]
      rw [List.append_assoc]
      rfl
    · rw [if_neg hfull, ih]
      rw [List.append_assoc]
      rfl

theorem upsertFold_fresh :
    ∀ (newRows rows : List ChunkRow),
      (∀ r ∈ rows, ∀ n ∈ newRows, ¬(r.bill = n.bill ∧ r.chunkIndex = n.chunkIndex)) →
      (newRows.Pairwise fun x y => ¬(x.bill = y.bill ∧ x.chunkIndex = y.chunkIndex)) →
      newRows.foldl upsertChunkRow rows = rows ++ newRows := by
  intro newRows
  induction newRows with
  | nil => intro rows _ _; simp
  | cons n rest ih =>
    intro rows hfresh hpair
    simp only [List.foldl_cons]
    have hany : rows.any (fun x => decide (x.bill = n.bill ∧ x.chunkIndex = n.chunkIndex)) = false := by
      rw [List.any_eq_false]
      intro x hx
      simp only [decide_eq_true_eq]
      exact hfresh x hx n (List.mem_cons_self _ _)
    have hup : upsertChunkRow rows n = rows ++ [n] := by
      rw [upsertChunkRow, if_neg (by rw [hany]; simp)]
    rw [hup]
    rw [ih (rows ++ [n]) ?fresh (List.pairwise_cons.mp hpair).2]
    · rw [List.append_assoc]; rfl
    case fresh =>
      intro r hr m hm
      rcases List.mem_append.mp hr with h1 | h2
      · exact hfresh r h1 m (List.mem_cons_of_mem _ hm)
      · rcases List.mem_singleton.mp h2 with rfl
        exact (List.pairwise_cons.mp hpair).1 m hm

/-! ## Claim theorems -/

/-- C2: the importance estimator maps the final-summary text to an integer in
1..5 by counting which of a fixed high-salience vocabulary terms (including
`appropriates`, `billion`, `national security`, `emergency`, `establishes`)
occur in the lowercased text and thresholding the count, saturating at 5; every
input scores between 1 and 5, and a text containing none of the keywords
scores exactly 1. -/
theorem claim_C2_importance_range (t : List Char) :
    (1 ≤ estimateImportance t ∧ estimateImportance t ≤ 5) ∧
    ("appropriates".data ∈ importanceKeywords ∧ "billion".data ∈ importanceKeywords ∧
      "national security".data ∈ importanceKeywords ∧ "emergency".data ∈ importanceKeywords ∧
      "establishes".data ∈ importanceKeywords) ∧
    ((∀ k ∈ importanceKeywords, hasSub (pyLower t) k = false) → estimateImportance t = 1) := by
  refine ⟨?_, by decide, ?_⟩
  · simp only [estimateImportance]
    split_ifs <;> omega
  · intro h
    have hf : importanceKeywords.filter (fun k => hasSub (pyLower t) k) = [] :=
      List.filter_eq_nil_iff.mpr (fun k hk => by rw [h k hk]; simp)
    simp [estimateImportance, hf]

/-- C2 witness: a keyword-free text scores exactly 1 (and is in range). -/
theorem claim_C2_importance_range_witness :
    1 ≤ estimateImportance "x".data ∧ estimateImportance "x".data = 1 :=
  ⟨(claim_C2_importance_range "x".data).1.1,
   (claim_C2_importance_range "x".data).2.2 (by decide)⟩

/-- C5: the reduce phase on a bill with zero stored bucket summaries raises
(returns the fixed error) and leaves the database unchanged — in particular no
FinalSummary row is written — whereas the map phase on a bill with zero chunks
returns normally with the database unchanged (no BucketSummary written, no
exception modelled). -/
theorem claim_C5_phase_preconditions (genO : List Char → Option (List Char)) (db : DB)
    (b : BillId) (jobId : Option Nat) :
    (bucketSummariesOf db b = [] →
      generateFinalSummary genO db b jobId = (db, some noBucketSummariesMsg)) ∧
    (chunkRowsOf db b = [] → generateBucketSummaries genO db b jobId = db) := by
  constructor
  · intro h
    simp [generateFinalSummary, h]
  · intro h
    have hbids : bucketIdsOf db b = [] := by
      unfold bucketIdsOf
      rw [h]
      decide
    simp [generateBucketSummaries, hbids]

/-- C5 witness: both phases at the empty database. -/
theorem claim_C5_phase_preconditions_witness :
    generateFinalSummary (fun _ => none) emptyDB sampleBill none
        = (emptyDB, some noBucketSummariesMsg) ∧
      generateBucketSummaries (fun _ => none) emptyDB sampleBill none = emptyDB :=
  ⟨(claim_C5_phase_preconditions (fun _ => none) emptyDB sampleBill none).1 (by decide),
   (claim_C5_phase_preconditions (fun _ => none) emptyDB sampleBill none).2 (by decide)⟩

/-- C9: querying a bill with zero persisted chunks returns the fixed
`not embedded yet` sentinel (for every generation oracle, i.e. without any
generation call) provided the question embedding succeeds; and the question is
embedded before the chunk-existence check: an embedding failure raises even
though the bill has no chunks. -/
theorem claim_C9_query_sentinel (embedO : List Char → Option (List Char))
    (dist : List Char → List Char → Nat) (genO : List Char → Option (List Char))
    (db : DB) (b : BillId) (q : List Char) (topK : Nat) :
    (chunkRowsOf db b = [] → ∀ e, embedO q = some e →
      queryBill embedO dist genO db b q topK = some notEmbeddedMsg) ∧
    (embedO q = none → queryBill embedO dist genO db b q topK = none) := by
  constructor
  · intro h e he
    simp [queryBill, he, h, sortBy]
  · intro h
    simp [queryBill, h]

/-- C9 witness: the sentinel at the empty database, and the raise on embedding
failure. -/
theorem claim_C9_query_sentinel_witness :
    queryBill (fun _ => some []) (fun _ _ => 0) (fun _ => none) emptyDB sampleBill "q".data 8
        = some notEmbeddedMsg ∧
      queryBill (fun _ => none) (fun _ _ => 0) (fun _ => none) emptyDB sampleBill "q".data 8
        = none :=
  ⟨(claim_C9_query_sentinel (fun _ => some []) (fun _ _ => 0) (fun _ => none)
      emptyDB sampleBill "q".data 8).1 (by decide) [] rfl,
   (claim_C9_query_sentinel (fun _ => none) (fun _ _ => 0) (fun _ => none)
      emptyDB sampleBill "q".data 8).2 rfl⟩

/-- C1 counterexample: the embedder progress update sets `status` to
`processing` unconditionally — even on a job already in the terminal
`completed` state — so a progress update does leave a terminal state. -/
theorem claim_C1_cex_terminal_left :
    (updateJobProgressEmbed [sampleCompletedJob] 1 (some 5) none none).map (fun r => r.status)
        = [JobStatus.processing] ∧
      JobStatus.processing ≠ JobStatus.completed ∧
      sampleCompletedJob.status = JobStatus.completed := by
  refine ⟨?_, by decide, by decide⟩
  decide

/-- C1 (amended): the embedder progress update with no field provided executes
nothing; with at least one of total_pages/pages_processed/chunks_embedded it
sets the matching job rows' status to `processing` unconditionally, terminal or
not; the summarizer progress update (map_summaries_done/reduce_done) never
changes any status. -/
theorem claim_C1_amended_progress (jobs : List JobRow) (jid : Nat)
    (tp pp ce ms : Option Nat) (rd : Option Bool) :
    ((tp = none ∧ pp = none ∧ ce = none) → updateJobProgressEmbed jobs jid tp pp ce = jobs) ∧
    (¬(tp = none ∧ pp = none ∧ ce = none) →
      ∀ r ∈ updateJobProgressEmbed jobs jid tp pp ce, r.jobId = jid →
        r.status = JobStatus.processing) ∧
    ((updateJobProgressSumm jobs jid ms rd).map (fun r => r.status)
      = jobs.map (fun r => r.status)) := by
  refine ⟨?_, ?_, ?_⟩
  · intro h
    rw [updateJobProgressEmbed, if_pos h]
  · intro h r hr hid
    rw [updateJobProgressEmbed, if_neg h] at hr
    obtain ⟨x, hx, hfx⟩ := List.mem_map.mp hr
    by_cases hxi : x.jobId = jid
    · rw [if_pos hxi] at hfx
      rw [← hfx]
    · rw [if_neg hxi] at hfx
      rw [← hfx] at hid
      exact absurd hid hxi
  · rw [updateJobProgressSumm]
    by_cases h : ms = none ∧ rd = none
    · rw [if_pos h]
    · rw [if_neg h, List.map_map]
      apply List.map_congr_left
      intro x _
      by_cases hxi : x.jobId = jid <;> simp [hxi, Function.comp]

/-- C1 witness: the three amended clauses at concrete inputs. -/
theorem claim_C1_amended_progress_witness :
    updateJobProgressEmbed [sampleCompletedJob] 1 none none none = [sampleCompletedJob] ∧
      (∀ r ∈ updateJobProgressEmbed [sampleCompletedJob] 1 (some 5) none none, r.jobId = 1 →
        r.status = JobStatus.processing) ∧
      (updateJobProgressSumm [sampleCompletedJob] 1 (some 2) none).map (fun r => r.status)
        = [sampleCompletedJob].map (fun r => r.status) :=
  ⟨(claim_C1_amended_progress [sampleCompletedJob] 1 none none none (some 2) none).1 (by decide),
   (claim_C1_amended_progress [sampleCompletedJob] 1 (some 5) none none (some 2) none).2.1 (by decide),
   (claim_C1_amended_progress [sampleCompletedJob] 1 (some 5) none none (some 2) none).2.2⟩

/-- C8: for every finite page stream, the chunker with its configured
parameters (3500/600/50) terminates and yields a finite chunk list: the fueled
inner emission loop never exhausts its fuel because each emission strictly
shrinks the buffer. -/
theorem claim_C8_chunker_terminates (pages : List (Nat × List Char)) :
    ∃ cs, chunkPageStream defaultCfg pages = some cs := by
  rw [chunkPageStream]
  obtain ⟨⟨cs0, sf⟩, hcp⟩ := Option.isSome_iff_exists.mp (chunkPages_total pages _)
  rw [hcp]
  exact ⟨_, rfl⟩

/-- C6: every chunk yielded for a page stream with weakly increasing page
numbers (as produced by `iter_pdf_pages`) has
`bucket_id = (page_start - 1) / bucket_size`, and bucket ids are monotonically
non-decreasing along the yielded sequence. -/
theorem claim_C6_bucket_id (cfg : Cfg) (pages : List (Nat × List Char)) (cs : List Chunk)
    (hmono : pagesMono 0 pages) (h : chunkPageStream cfg pages = some cs) :
    (∀ c ∈ cs, c.bucketId = (c.pageStart - 1) / cfg.bucketSize) ∧
    List.Pairwise (fun a b => a ≤ b) (cs.map (fun c => c.bucketId)) := by
  obtain ⟨h1, h2, _⟩ := chunkPageStream_inv cfg pages cs hmono h
  refine ⟨h1, ?_⟩
  rw [List.pairwise_map]
  exact List.Pairwise.imp_of_mem
    (fun ha hb hr => by
      rw [h1 _ ha, h1 _ hb]
      exact Nat.div_le_div_right (Nat.sub_le_sub_right hr 1)) h2

/-- C6 witness: a one-page stream. -/
theorem claim_C6_bucket_id_witness :
    (∀ c ∈ [{ text := "a".data, pageStart := 1, pageEnd := 1, bucketId := 0, charStart := 0,
              charEnd := 2, chunkIndex := 0 : Chunk }],
        c.bucketId = (c.pageStart - 1) / defaultCfg.bucketSize) ∧
      List.Pairwise (fun a b => a ≤ b)
        ([{ text := "a".data, pageStart := 1, pageEnd := 1, bucketId := 0, charStart := 0,
            charEnd := 2, chunkIndex := 0 : Chunk }].map (fun c => c.bucketId)) :=
  claim_C6_bucket_id defaultCfg [(1, "a".data)] _ ⟨Nat.zero_le 1, trivial⟩ (by decide)

/-- C7 (amended): a page stream whose pages all yield empty cleaned text
produces zero chunks without error; and a nonblank document whose total
extracted text plus the one separator character per page is shorter than the
chunk target yields exactly one chunk spanning the whole document
(page_start 1, page_end = page count, bucket_id 0). -/
theorem claim_C7_amended_edge_cases :
    (∀ texts : List (List Char), (∀ t ∈ texts, t = []) →
      processPdfStreaming defaultCfg texts = some []) ∧
    (∀ texts : List (List Char), texts ≠ [] →
      texts.length + (texts.map List.length).sum < 3500 →
      pyStrip (joinPages texts) ≠ [] →
      processPdfStreaming defaultCfg texts =
        some [{ text := pyStrip (joinPages texts), pageStart := 1, pageEnd := texts.length,
                bucketId := 0, charStart := 0, charEnd := (joinPages texts).length,
                chunkIndex := 0 }]) := by
  constructor
  · intro texts hempty
    rw [processPdfStreaming, chunkPageStream]
    obtain ⟨⟨cs0, sf⟩, hcp⟩ := Option.isSome_iff_exists.mp
      (chunkPages_total (pagesFrom 1 texts)
        { buffer := [], pageStart := 0, pageEnd := 0, charPos := 0, chunkIndex := 0 })
    rw [hcp]
    obtain ⟨h1, h2⟩ := chunkPages_allspace defaultCfg _ _ _ _ hcp
      (fun p hp => hempty p.2 (pagesFrom_texts texts 1 p hp))
      (fun c hc => absurd hc (by simp))
    subst h1
    have hf : finalFlush defaultCfg sf = [] := by
      show (if pyStrip sf.buffer = [] then ([] : List Chunk) else _) = []
      rw [if_pos (pyStrip_allspace _ h2)]
    simp [hf]
  · intro texts hne hlen hstrip
    obtain ⟨t, ts, rfl⟩ : ∃ t ts, texts = t :: ts := by
      cases texts with
      | nil => exact absurd rfl hne
      | cons t ts => exact ⟨t, ts, rfl⟩
    rw [processPdfStreaming, chunkPageStream, pagesFrom, chunkPages]
    have hfeed : feedPage { buffer := [], pageStart := 0, pageEnd := 0, charPos := 0, chunkIndex := 0 } 1 t
        = { buffer := ' ' :: t, pageStart := 1, pageEnd := 1, charPos := 0, chunkIndex := 0 } := rfl
    rw [hfeed]
    simp only [List.length_cons, List.map_cons, List.sum_cons] at hlen
    have hlen1 : (' ' :: t).length < defaultCfg.chunkChars := by
      show (' ' :: t).length < 3500
      simp only [List.length_cons]
      omega
    rw [emitLoop_small defaultCfg _ _ hlen1]
    obtain ⟨sf, hsf, hbuf, hpstart, hcp2, hcix, hpe⟩ := chunkPages_small defaultCfg ts 2
      { buffer := ' ' :: t, pageStart := 1, pageEnd := 1, charPos := 0, chunkIndex := 0 }
      (by simp)
      (by show (' ' :: t).length + _ < 3500; simp only [List.length_cons]; omega)
    have hbufeq : sf.buffer = joinPages (t :: ts) := by
      rw [hbuf]
      show (' ' :: t) ++ joinPages ts = _
      simp [joinPages]
    have h_ps : sf.pageStart = 1 := hpstart
    have h_cp : sf.charPos = 0 := hcp2
    have h_ci : sf.chunkIndex = 0 := hcix
    have h_pe : sf.pageEnd = (t :: ts).length := by
      rcases hpe with ⟨hts, hpe2⟩ | ⟨hts, hpe2⟩
      · subst hts
        rw [hpe2]
        rfl
      · rw [hpe2]
        simp only [List.length_cons]
        have : ts.length ≠ 0 := fun hcon => hts (List.length_eq_zero.mp hcon)
        omega
    have hne2 : pyStrip sf.buffer ≠ [] := by rw [hbufeq]; exact hstrip
    have hflush : finalFlush defaultCfg sf =
        [{ text := pyStrip (joinPages (t :: ts)), pageStart := 1, pageEnd := (t :: ts).length,
           bucketId := 0, charStart := 0, charEnd := (joinPages (t :: ts)).length,
           chunkIndex := 0 }] := by
      show (if pyStrip sf.buffer = [] then ([] : List Chunk) else _) = _
      rw [if_neg hne2, hbufeq, h_ps, h_cp, h_ci, h_pe]
      simp [defaultCfg]
    simp only [hsf, hflush]
    rfl

/-- C7 witness: the amended clauses at a two-empty-page stream and at a
three-page document with tiny pages. -/
theorem claim_C7_amended_edge_cases_witness :
    processPdfStreaming defaultCfg [[], []] = some [] ∧
      processPdfStreaming defaultCfg ["a".data, "b".data, "c".data] =
        some [{ text := pyStrip (joinPages ["a".data, "b".data, "c".data]), pageStart := 1,
                pageEnd := 3, bucketId := 0, charStart := 0,
                charEnd := (joinPages ["a".data, "b".data, "c".data]).length,
                chunkIndex := 0 }] :=
  ⟨claim_C7_amended_edge_cases.1 [[], []] (by decide),
   claim_C7_amended_edge_cases.2 ["a".data, "b".data, "c".data] (by decide) (by decide) (by decide)⟩

/-! ## Symbolic evaluation helpers for the large counterexamples -/

theorem pyStrip_cons_space (l : List Char) : pyStrip (' ' :: l) = pyStrip l := by
  rw [pyStrip, pyStrip, List.dropWhile_cons_of_pos (by decide : pySpace ' ' = true)]

theorem pyStrip_append_space (l : List Char) : pyStrip (l ++ [' ']) = pyStrip l := by
  rw [pyStrip, pyStrip, List.dropWhile_append]
  by_cases h : (l.dropWhile pySpace).isEmpty
  · rw [if_pos h]
    have h3 : l.dropWhile pySpace = [] := List.isEmpty_iff.mp h
    rw [h3]
    rfl
  · rw [if_neg h, List.reverse_append]
    show ((' ' :: (l.dropWhile pySpace).reverse).dropWhile pySpace).reverse = _
    rw [List.dropWhile_cons_of_pos (by decide : pySpace ' ' = true)]

theorem pyStrip_noedge (c d : Char) (mid : List Char) (hc : pySpace c = false)
    (hd : pySpace d = false) : pyStrip (c :: (mid ++ [d])) = c :: (mid ++ [d]) := by
  rw [pyStrip, List.dropWhile_cons_of_neg (by simp [hc])]
  have hrev : (c :: (mid ++ [d])).reverse = d :: (mid.reverse ++ [c]) := by simp
  rw [hrev, List.dropWhile_cons_of_neg (by simp [hd]), ← hrev, List.reverse_reverse]

theorem takeWhile_space_replicate_a (m : Nat) :
    (List.replicate m 'a').takeWhile pySpace = [] := by
  cases m with
  | zero => rfl
  | succ m => rw [List.replicate_succ, List.takeWhile_cons_of_neg (by decide)]

theorem sentenceEnds_replicate_a :
    ∀ (n : Nat) (l : List Char) (i : Nat),
      sentenceEnds (List.replicate n 'a' ++ l) i = sentenceEnds l (i + n) := by
  intro n
  induction n with
  | zero => intro l i; simp
  | succ n ih =>
    intro l i
    rw [List.replicate_succ, List.cons_append]
    cases hsplit : List.replicate n 'a' ++ l with
    | nil =>
      obtain ⟨h1, h2⟩ := List.append_eq_nil.mp hsplit
      subst h2
      simp [sentenceEnds]
    | cons c2 rest =>
      rw [sentenceEnds]
      rw [if_neg (fun hcon => absurd hcon.1 (by decide))]
      rw [← hsplit]
      rw [ih]
      have : i + 1 + n = i + (n + 1) := by omega
      rw [this]

theorem sentenceEnds_dot_space_replicate (m i : Nat) :
    sentenceEnds ('.' :: ' ' :: List.replicate m 'a') i = [i + 2] := by
  rw [sentenceEnds, if_pos ⟨by decide, by decide⟩, takeWhile_space_replicate_a]
  cases m with
  | zero => rfl
  | succ m =>
    rw [List.replicate_succ, sentenceEnds, if_neg (fun hcon => absurd hcon.1 (by decide))]
    have h0 : sentenceEnds (List.replicate (m + 1) 'a' ++ ([] : List Char)) (i + 2)
        = sentenceEnds ([] : List Char) (i + 2 + (m + 1)) := sentenceEnds_replicate_a (m + 1) [] (i + 2)
    rw [List.append_nil] at h0
    rw [← List.replicate_succ, h0]
    rfl

theorem drop_replicate_append (n m : Nat) (a : Char) (l : List Char) (h : n ≤ m) :
    (List.replicate m a ++ l).drop n = List.replicate (m - n) a ++ l := by
  conv_lhs => rw [show m = n + (m - n) by omega, List.replicate_add, List.append_assoc]
  exact List.drop_left' (by simp)


/-- The else branch of `_find_break_point` with its lets expanded. -/
theorem findBreakPoint_of_gt (text : List Char) (target : Nat) (h : ¬ text.length ≤ target) :
    findBreakPoint text target =
      (match minByFirst (fun x => distN ((target - 200) + x) target)
          (sentenceEnds ((text.take (min text.length (target + 200))).drop (target - 200)) 0) with
        | some closest => (target - 200) + closest
        | none =>
          if target < text.length then
            match findSpaceFrom text target with
            | some p => p
            | none => target
          else target) := by
  rw [findBreakPoint, if_neg h]

theorem minByFirst_nil (key : Nat → Nat) : minByFirst key [] = none := rfl

/-- C3 counterexample: a buffer of length exactly the target (3500) with a
sentence boundary inside the ±200 window (the match end at window offset 100,
i.e. position 3400).  The claim, which applies the window search to every
buffer of length at least the target, requires break point 3400; the code
returns the full length 3500 because its window search only runs for buffers
strictly longer than the target. -/
theorem claim_C3_cex_boundary_buffer :
    boundaryBuffer.length = 3500 ∧
      sentenceEnds ((boundaryBuffer.take (min boundaryBuffer.length (3500 + 200))).drop (3500 - 200)) 0
        = [100] ∧
      findBreakPoint boundaryBuffer 3500 = 3500 ∧ (3500 - 200) + 100 ≠ 3500 := by
  have hlen : boundaryBuffer.length = 3500 := by
    rw [boundaryBuffer, List.length_append, List.length_append, List.length_replicate,
      List.length_replicate]
    rfl
  have hmin : min boundaryBuffer.length (3500 + 200) = boundaryBuffer.length := by
    rw [hlen]
    decide
  have hregion : (boundaryBuffer.take (min boundaryBuffer.length (3500 + 200))).drop (3500 - 200)
      = List.replicate 98 'a' ++ ('.' :: ' ' :: List.replicate 100 'a') := by
    rw [hmin, List.take_length]
    show boundaryBuffer.drop 3300 = _
    rw [boundaryBuffer, List.append_assoc]
    rw [drop_replicate_append 3300 3398 'a' _ (by omega)]
    rfl
  refine ⟨hlen, ?_, ?_, by omega⟩
  · rw [hregion, sentenceEnds_replicate_a 98 _ 0, sentenceEnds_dot_space_replicate]
  · rw [findBreakPoint, if_pos (le_of_eq hlen)]
    exact hlen

/-- C3 (amended): for a buffer strictly longer than the target, the break point
is the end of a sentence-punctuation-plus-whitespace match in the ±200 window
nearest to the target when any exists, else the next space at or after the
target, else the target itself; for a buffer of length at most the target the
break point is the buffer length.  (The original claim said "at least the
target" for the first part; the window search in fact runs only for buffers
strictly longer than the target — see the counterexample.) -/
theorem claim_C3_amended_break_point (text : List Char) (target : Nat) :
    (text.length ≤ target → findBreakPoint text target = text.length) ∧
    (target < text.length →
      (sentenceEnds ((text.take (min text.length (target + 200))).drop (target - 200)) 0 ≠ [] →
        ∃ e ∈ sentenceEnds ((text.take (min text.length (target + 200))).drop (target - 200)) 0,
          findBreakPoint text target = (target - 200) + e ∧
          ∀ e2 ∈ sentenceEnds ((text.take (min text.length (target + 200))).drop (target - 200)) 0,
            distN ((target - 200) + e) target ≤ distN ((target - 200) + e2) target) ∧
      (sentenceEnds ((text.take (min text.length (target + 200))).drop (target - 200)) 0 = [] →
        (∀ p, findSpaceFrom text target = some p →
          findBreakPoint text target = p ∧ target ≤ p ∧ p < text.length ∧
          text.get? p = some ' ' ∧ (∀ q, target ≤ q → q < p → text.get? q ≠ some ' ')) ∧
        (findSpaceFrom text target = none → findBreakPoint text target = target))) := by
  constructor
  · intro h
    rw [findBreakPoint, if_pos h]
  · intro hlt
    have hnle : ¬ text.length ≤ target := by omega
    constructor
    · intro hne
      obtain ⟨x, hx⟩ := minByFirst_ne_nil (fun x => distN (target - 200 + x) target) _ hne
      exact ⟨x, minByFirst_mem _ _ _ hx,
        by rw [findBreakPoint_of_gt text target hnle, hx],
        minByFirst_min _ _ _ hx⟩
    · intro hnil
      constructor
      · intro p hp
        obtain ⟨h1, h2, h3, h4⟩ := findSpaceAux_spec (text.drop target) target p hp
        rw [List.length_drop] at h2
        refine ⟨?_, h1, by omega, ?_, ?_⟩
        · rw [findBreakPoint_of_gt text target hnle, hnil, minByFirst_nil]
          show (if target < text.length then _ else target) = p
          rw [if_pos hlt, hp]
        · rw [List.get?_drop] at h3
          have : target + (p - target) = p := by omega
          rwa [this] at h3
        · intro q hq1 hq2
          have h5 := h4 q hq1 hq2
          rw [List.get?_drop] at h5
          have : target + (q - target) = q := by omega
          rwa [this] at h5
      · intro hnone
        rw [findBreakPoint_of_gt text target hnle, hnil, minByFirst_nil]
        show (if target < text.length then _ else target) = target
        rw [if_pos hlt, hnone]

/-- C3 witness: the three regimes at small concrete buffers. -/
theorem claim_C3_amended_break_point_witness :
    findBreakPoint "ab".data 5 = ("ab".data).length ∧
      (∃ e ∈ sentenceEnds ((("ab. cdef".data).take (min ("ab. cdef".data).length (3 + 200))).drop (3 - 200)) 0,
        findBreakPoint "ab. cdef".data 3 = (3 - 200) + e ∧
        ∀ e2 ∈ sentenceEnds ((("ab. cdef".data).take (min ("ab. cdef".data).length (3 + 200))).drop (3 - 200)) 0,
          distN ((3 - 200) + e) 3 ≤ distN ((3 - 200) + e2) 3) ∧
      findBreakPoint "abcdefgh".data 3 = 3 :=
  ⟨(claim_C3_amended_break_point "ab".data 5).1 (by decide),
   ((claim_C3_amended_break_point "ab. cdef".data 3).2 (by decide)).1 (by decide),
   (((claim_C3_amended_break_point "abcdefgh".data 3).2 (by decide)).2 (by decide)).2 (by decide)⟩

/-! ## Stepping lemmas for concrete pipeline runs -/

theorem chunkPages_nil_eq (cfg : Cfg) (s : ChunkState) : chunkPages cfg [] s = some ([], s) := rfl

theorem chunkPages_cons_some (cfg : Cfg) (pn : Nat) (t : List Char)
    (rest : List (Nat × List Char)) (s : ChunkState) (cs1 : List Chunk) (s2 : ChunkState)
    (cs2 : List Chunk) (s3 : ChunkState)
    (h1 : emitLoop cfg (feedPage s pn t).buffer.length (feedPage s pn t) = some (cs1, s2))
    (h2 : chunkPages cfg rest s2 = some (cs2, s3)) :
    chunkPages cfg ((pn, t) :: rest) s = some (cs1 ++ cs2, s3) := by
  simp only [chunkPages, h1, h2]

theorem chunkPageStream_eq (cfg : Cfg) (pages : List (Nat × List Char)) (cs0 : List Chunk)
    (sf : ChunkState)
    (h : chunkPages cfg pages { buffer := [], pageStart := 0, pageEnd := 0, charPos := 0, chunkIndex := 0 }
      = some (cs0, sf)) :
    chunkPageStream cfg pages = some (cs0 ++ finalFlush cfg sf) := by
  rw [chunkPageStream]
  simp only [h]

theorem emitLoop_succ_of_ge (cfg : Cfg) (f : Nat) (s : ChunkState)
    (h : ¬ s.buffer.length < cfg.chunkChars) (cs : List Chunk) (s3 : ChunkState)
    (hrec : emitLoop cfg f (emitChunk cfg s).1 = some (cs, s3)) :
    emitLoop cfg (f + 1) s = some ((emitChunk cfg s).2 ++ cs, s3) := by
  rw [emitLoop, if_neg h]
  simp only [hrec]

theorem finalFlush_nonempty (cfg : Cfg) (s : ChunkState) (h : pyStrip s.buffer ≠ []) :
    finalFlush cfg s = [{ text := pyStrip s.buffer, pageStart := s.pageStart,
                          pageEnd := s.pageEnd, bucketId := (s.pageStart - 1) / cfg.bucketSize,
                          charStart := s.charPos, charEnd := s.charPos + s.buffer.length,
                          chunkIndex := s.chunkIndex }] := by
  rcases finalFlush_cases cfg s with hf | hf
  · exfalso
    apply h
    by_contra h2
    rw [finalFlush] at hf
    rw [if_neg h2] at hf
    exact absurd hf (by simp)
  · exact hf

theorem emitChunk_eq_general (cfg : Cfg) (s : ChunkState) (bp : Nat) (ct : List Char)
    (hbp : findBreakPoint s.buffer cfg.chunkChars = bp)
    (hct : pyStrip (s.buffer.take bp) = ct) (hne : ct ≠ [])
    (b2 : List Char) (hb2 : s.buffer.drop (bp - cfg.overlapChars) = b2)
    (hlp : ¬ b2.length < cfg.overlapChars) :
    emitChunk cfg s =
      ({ buffer := b2, pageStart := s.pageStart, pageEnd := s.pageEnd,
         charPos := s.charPos + (bp - (bp - cfg.overlapChars)), chunkIndex := s.chunkIndex + 1 },
       [{ text := ct, pageStart := s.pageStart, pageEnd := s.pageEnd,
          bucketId := (s.pageStart - 1) / cfg.bucketSize, charStart := s.charPos,
          charEnd := s.charPos + ct.length, chunkIndex := s.chunkIndex }]) := by
  simp only [emitChunk, hbp, hct, hb2]
  rw [if_neg hne, if_neg hlp]
  simp

theorem emitChunk_eq_clean (cfg : Cfg) (s : ChunkState) (bp : Nat) (ct : List Char)
    (b2 : List Char) (ps pe cp0 ci0 ov bk : Nat)
    (hps : s.pageStart = ps) (hpe : s.pageEnd = pe) (hcp : s.charPos = cp0)
    (hci : s.chunkIndex = ci0) (hov : cfg.overlapChars = ov) (hbk : cfg.bucketSize = bk)
    (hbp : findBreakPoint s.buffer cfg.chunkChars = bp)
    (hct : pyStrip (s.buffer.take bp) = ct) (hne : ct ≠ [])
    (hb2 : s.buffer.drop (bp - ov) = b2) (hlp : ¬ b2.length < ov) :
    emitChunk cfg s =
      ({ buffer := b2, pageStart := ps, pageEnd := pe,
         charPos := cp0 + (bp - (bp - ov)), chunkIndex := ci0 + 1 },
       [{ text := ct, pageStart := ps, pageEnd := pe,
          bucketId := (ps - 1) / bk, charStart := cp0,
          charEnd := cp0 + ct.length, chunkIndex := ci0 }]) := by
  subst hps; subst hpe; subst hcp; subst hci; subst hov; subst hbk
  exact emitChunk_eq_general cfg s bp ct hbp hct hne b2 hb2 hlp

theorem pyStrip_eq_nil (l : List Char) (h : pyStrip l = []) : ∀ c ∈ l, pySpace c := by
  rw [pyStrip] at h
  have h1 : ((l.dropWhile pySpace).reverse.dropWhile pySpace) = [] := by
    have := congrArg List.reverse h
    rwa [List.reverse_reverse] at this
  have h2 : ∀ c ∈ (l.dropWhile pySpace).reverse, pySpace c := List.dropWhile_eq_nil_iff.mp h1
  have h3 : ∀ c ∈ l.dropWhile pySpace, pySpace c :=
    fun c hc => h2 c (List.mem_reverse.mpr hc)
  intro c hc
  rw [← List.takeWhile_append_dropWhile (p := pySpace) (l := l)] at hc
  rcases List.mem_append.mp hc with hm | hm
  · exact List.mem_takeWhile_imp hm
  · exact h3 c hm

theorem pyStrip_ne_nil_of_mem (l : List Char) (c : Char) (hc : c ∈ l)
    (hns : pySpace c = false) : pyStrip l ≠ [] := by
  intro h
  have := pyStrip_eq_nil l h c hc
  rw [hns] at this
  exact absurd this (by simp)

/-- C7 counterexample: a 3-page document whose total extracted text is 3499
characters — strictly under the 3500-character chunk target — yields two
chunks, not one, because the chunker inserts one separator character per page
into its buffer (3499 text characters + 3 separators = 3502 ≥ 3500). -/
theorem claim_C7_cex_two_chunks :
    ([longPage, ['a'], ['a']].map List.length).sum = 3499 ∧ 3499 < 3500 ∧
      ∃ a b, processPdfStreaming defaultCfg [longPage, ['a'], ['a']] = some [a, b] := by
  have hlp : longPage.length = 3497 := by rw [longPage, List.length_replicate]
  refine ⟨?_, by omega, ?_⟩
  · simp only [List.map_cons, List.map_nil, List.sum_cons, List.sum_nil, hlp, List.length_cons,
      List.length_nil]
    omega
  · have hE1 : emitLoop defaultCfg
        (feedPage { buffer := [], pageStart := 0, pageEnd := 0, charPos := 0, chunkIndex := 0 } 1 longPage).buffer.length
        (feedPage { buffer := [], pageStart := 0, pageEnd := 0, charPos := 0, chunkIndex := 0 } 1 longPage)
        = some ([], { buffer := ' ' :: longPage, pageStart := 1, pageEnd := 1, charPos := 0, chunkIndex := 0 }) := by
      rw [show feedPage { buffer := [], pageStart := 0, pageEnd := 0, charPos := 0, chunkIndex := 0 } 1 longPage
          = { buffer := ' ' :: longPage, pageStart := 1, pageEnd := 1, charPos := 0, chunkIndex := 0 } from rfl]
      exact emitLoop_small defaultCfg _ _
        (by show (' ' :: longPage).length < 3500; rw [List.length_cons, hlp]; omega)
    have hlen2 : ((' ' :: longPage) ++ [' ', 'a']).length = 3500 := by
      rw [List.length_append, List.length_cons, hlp]
      rfl
    have hfb2 : findBreakPoint ((' ' :: longPage) ++ [' ', 'a']) 3500 = 3500 := by
      rw [findBreakPoint, if_pos (le_of_eq hlen2)]
      exact hlen2
    have htake2 : ((' ' :: longPage) ++ [' ', 'a']).take 3500 = (' ' :: longPage) ++ [' ', 'a'] := by
      rw [← hlen2, List.take_length]
    have hdrop2 : ((' ' :: longPage) ++ [' ', 'a']).drop (3500 - 600) = List.replicate 598 'a' ++ [' ', 'a'] := by
      rw [List.cons_append]
      rw [show (3500 - 600 : Nat) = 2899 + 1 from rfl]
      rw [List.drop_succ_cons]
      rw [longPage]
      rw [drop_replicate_append 2899 3497 'a' _ (by omega)]
    have hEC : emitChunk defaultCfg
        { buffer := (' ' :: longPage) ++ [' ', 'a'], pageStart := 1, pageEnd := 2, charPos := 0, chunkIndex := 0 }
        = ({ buffer := List.replicate 598 'a' ++ [' ', 'a'], pageStart := 1, pageEnd := 2, charPos := 600, chunkIndex := 1 },
           [{ text := pyStrip (((' ' :: longPage) ++ [' ', 'a']).take 3500), pageStart := 1, pageEnd := 2,
              bucketId := 0, charStart := 0,
              charEnd := 0 + (pyStrip (((' ' :: longPage) ++ [' ', 'a']).take 3500)).length, chunkIndex := 0 }]) := by
      have hne : pyStrip (((' ' :: longPage) ++ [' ', 'a']).take 3500) ≠ [] := by
        rw [htake2]
        exact pyStrip_ne_nil_of_mem _ 'a'
          (List.mem_append.mpr (Or.inr (by decide))) (by decide)
      exact emitChunk_eq_clean defaultCfg
        { buffer := (' ' :: longPage) ++ [' ', 'a'], pageStart := 1, pageEnd := 2, charPos := 0, chunkIndex := 0 }
        3500 (pyStrip (((' ' :: longPage) ++ [' ', 'a']).take 3500))
        (List.replicate 598 'a' ++ [' ', 'a']) 1 2 0 0 600 50
        rfl rfl rfl rfl rfl rfl hfb2 rfl hne hdrop2
        (by rw [List.length_append, List.length_replicate]
            show ¬ (598 + 2 < 600)
            omega)
    have hE2 : emitLoop defaultCfg
        (feedPage { buffer := ' ' :: longPage, pageStart := 1, pageEnd := 1, charPos := 0, chunkIndex := 0 } 2 ['a']).buffer.length
        (feedPage { buffer := ' ' :: longPage, pageStart := 1, pageEnd := 1, charPos := 0, chunkIndex := 0 } 2 ['a'])
        = some ([{ text := pyStrip (((' ' :: longPage) ++ [' ', 'a']).take 3500), pageStart := 1, pageEnd := 2,
                   bucketId := 0, charStart := 0,
                   charEnd := 0 + (pyStrip (((' ' :: longPage) ++ [' ', 'a']).take 3500)).length, chunkIndex := 0 }],
                { buffer := List.replicate 598 'a' ++ [' ', 'a'], pageStart := 1, pageEnd := 2, charPos := 600, chunkIndex := 1 }) := by
      rw [show feedPage { buffer := ' ' :: longPage, pageStart := 1, pageEnd := 1, charPos := 0, chunkIndex := 0 } 2 ['a']
          = { buffer := (' ' :: longPage) ++ [' ', 'a'], pageStart := 1, pageEnd := 2, charPos := 0, chunkIndex := 0 } from rfl]
      rw [show ({ buffer := (' ' :: longPage) ++ [' ', 'a'], pageStart := 1, pageEnd := 2, charPos := 0,
                  chunkIndex := 0 } : ChunkState).buffer.length = 3500 from hlen2]
      have hrec : emitLoop defaultCfg 3499
          (emitChunk defaultCfg { buffer := (' ' :: longPage) ++ [' ', 'a'], pageStart := 1, pageEnd := 2, charPos := 0, chunkIndex := 0 }).1
          = some ([], { buffer := List.replicate 598 'a' ++ [' ', 'a'], pageStart := 1, pageEnd := 2, charPos := 600, chunkIndex := 1 }) := by
        rw [hEC]
        exact emitLoop_small defaultCfg _ _
          (by show (List.replicate 598 'a' ++ [' ', 'a']).length < 3500
              rw [List.length_append, List.length_replicate]
              show 598 + 2 < 3500
              omega)
      have hstep := emitLoop_succ_of_ge defaultCfg 3499
        { buffer := (' ' :: longPage) ++ [' ', 'a'], pageStart := 1, pageEnd := 2, charPos := 0, chunkIndex := 0 }
        (by show ¬ ((' ' :: longPage) ++ [' ', 'a']).length < 3500; rw [hlen2]; omega)
        [] _ hrec
      rw [hEC] at hstep
      exact hstep
    have hE3 : emitLoop defaultCfg
        (feedPage { buffer := List.replicate 598 'a' ++ [' ', 'a'], pageStart := 1, pageEnd := 2, charPos := 600, chunkIndex := 1 } 3 ['a']).buffer.length
        (feedPage { buffer := List.replicate 598 'a' ++ [' ', 'a'], pageStart := 1, pageEnd := 2, charPos := 600, chunkIndex := 1 } 3 ['a'])
        = some ([], { buffer := (List.replicate 598 'a' ++ [' ', 'a']) ++ [' ', 'a'], pageStart := 1, pageEnd := 3, charPos := 600, chunkIndex := 1 }) := by
      rw [show feedPage { buffer := List.replicate 598 'a' ++ [' ', 'a'], pageStart := 1, pageEnd := 2, charPos := 600, chunkIndex := 1 } 3 ['a']
          = { buffer := (List.replicate 598 'a' ++ [' ', 'a']) ++ [' ', 'a'], pageStart := 1, pageEnd := 3, charPos := 600, chunkIndex := 1 } from rfl]
      exact emitLoop_small defaultCfg _ _
        (by rw [List.length_append, List.length_append, List.length_replicate]
            show 598 + 2 + 2 < 3500
            omega)
    have hCP3 : chunkPages defaultCfg [(3, ['a'])]
        { buffer := List.replicate 598 'a' ++ [' ', 'a'], pageStart := 1, pageEnd := 2, charPos := 600, chunkIndex := 1 }
        = some ([], { buffer := (List.replicate 598 'a' ++ [' ', 'a']) ++ [' ', 'a'], pageStart := 1, pageEnd := 3, charPos := 600, chunkIndex := 1 }) := by
      have hc := chunkPages_cons_some defaultCfg 3 ['a'] [] _ [] _ [] _ hE3 (chunkPages_nil_eq defaultCfg _)
      exact hc
    have hCP2 : chunkPages defaultCfg [(2, ['a']), (3, ['a'])]
        { buffer := ' ' :: longPage, pageStart := 1, pageEnd := 1, charPos := 0, chunkIndex := 0 }
        = some ([{ text := pyStrip (((' ' :: longPage) ++ [' ', 'a']).take 3500), pageStart := 1, pageEnd := 2,
                   bucketId := 0, charStart := 0,
                   charEnd := 0 + (pyStrip (((' ' :: longPage) ++ [' ', 'a']).take 3500)).length, chunkIndex := 0 }],
                { buffer := (List.replicate 598 'a' ++ [' ', 'a']) ++ [' ', 'a'], pageStart := 1, pageEnd := 3, charPos := 600, chunkIndex := 1 }) := by
      have hc := chunkPages_cons_some defaultCfg 2 ['a'] [(3, ['a'])] _ _ _ _ _ hE2 hCP3
      exact hc
    have hCP1 : chunkPages defaultCfg [(1, longPage), (2, ['a']), (3, ['a'])]
        { buffer := [], pageStart := 0, pageEnd := 0, charPos := 0, chunkIndex := 0 }
        = some ([{ text := pyStrip (((' ' :: longPage) ++ [' ', 'a']).take 3500), pageStart := 1, pageEnd := 2,
                   bucketId := 0, charStart := 0,
                   charEnd := 0 + (pyStrip (((' ' :: longPage) ++ [' ', 'a']).take 3500)).length, chunkIndex := 0 }],
                { buffer := (List.replicate 598 'a' ++ [' ', 'a']) ++ [' ', 'a'], pageStart := 1, pageEnd := 3, charPos := 600, chunkIndex := 1 }) := by
      have hc := chunkPages_cons_some defaultCfg 1 longPage [(2, ['a']), (3, ['a'])] _ _ _ _ _ hE1 hCP2
      exact hc
    have hne4 : pyStrip (ChunkState.buffer { buffer := (List.replicate 598 'a' ++ [' ', 'a']) ++ [' ', 'a'], pageStart := 1, pageEnd := 3, charPos := 600, chunkIndex := 1 }) ≠ [] := by
      show pyStrip ((List.replicate 598 'a' ++ [' ', 'a']) ++ [' ', 'a']) ≠ []
      exact pyStrip_ne_nil_of_mem _ 'a' (List.mem_append.mpr (Or.inr (by decide))) (by decide)
    have hfinal := chunkPageStream_eq defaultCfg [(1, longPage), (2, ['a']), (3, ['a'])] _ _ hCP1
    rw [finalFlush_nonempty defaultCfg _ hne4] at hfinal
    rw [← show processPdfStreaming defaultCfg [longPage, ['a'], ['a']]
        = chunkPageStream defaultCfg [(1, longPage), (2, ['a']), (3, ['a'])] from rfl] at hfinal
    exact ⟨_, _, hfinal⟩

set_option maxRecDepth 4000 in
/-- C10: a single 3600-character page whose sentence boundary falls exactly at
the end of the accumulated buffer.  The break point lands at the buffer end, so
after emitting the chunk only the retained 600-character overlap remains; the
stream then ends and the overlap is flushed as a second chunk whose text is
wholly contained in the first chunk's text (no new document content). -/
theorem claim_C10_overlap_only_flush :
    ∃ a b, processPdfStreaming defaultCfg [overlapPage] = some [a, b] ∧
      List.IsInfix b.text a.text := by
  have hlen : (' ' :: overlapPage).length = 3601 := by
    rw [List.length_cons, overlapPage, List.length_append, List.length_replicate]
    rfl
  have hfb : findBreakPoint (' ' :: overlapPage) 3500 = 3601 := by
    rw [findBreakPoint_of_gt _ _ (by rw [hlen]; omega)]
    have hmin : min (' ' :: overlapPage).length (3500 + 200) = (' ' :: overlapPage).length := by
      rw [hlen]
      decide
    have hregion : ((' ' :: overlapPage).take (min (' ' :: overlapPage).length (3500 + 200))).drop (3500 - 200)
        = List.replicate 299 'a' ++ ['.', ' '] := by
      rw [hmin, List.take_length]
      show (' ' :: overlapPage).drop 3300 = _
      rw [show (3300 : Nat) = 3299 + 1 from rfl, List.drop_succ_cons, overlapPage,
        drop_replicate_append 3299 3598 'a' _ (by omega)]
    rw [hregion, sentenceEnds_replicate_a 299 _ 0]
    rw [show (['.', ' '] : List Char) = '.' :: ' ' :: List.replicate 0 'a' from rfl]
    rw [sentenceEnds_dot_space_replicate 0 (0 + 299)]
    rw [show minByFirst (fun x => distN ((3500 - 200) + x) 3500) [0 + 299 + 2] = some 301 from rfl]
  have hstrip : pyStrip (' ' :: overlapPage) = List.replicate 3598 'a' ++ ['.'] := by
    rw [pyStrip_cons_space, overlapPage,
      show (['.', ' '] : List Char) = ['.'] ++ [' '] from rfl,
      ← List.append_assoc, pyStrip_append_space,
      show (3598 : Nat) = 3597 + 1 from rfl, List.replicate_succ, List.cons_append,
      pyStrip_noedge 'a' '.' (List.replicate 3597 'a') (by decide) (by decide)]
  have htake : (' ' :: overlapPage).take 3601 = ' ' :: overlapPage := by
    rw [← hlen, List.take_length]
  have hct10 : pyStrip ((' ' :: overlapPage).take 3601) = List.replicate 3598 'a' ++ ['.'] := by
    rw [htake]
    exact hstrip
  have hne10 : List.replicate 3598 'a' ++ ['.'] ≠ ([] : List Char) := by
    intro h
    have hl := congrArg List.length h
    rw [List.length_append, List.length_replicate] at hl
    exact absurd hl (by decide)
  have hdropb : (' ' :: overlapPage).drop (3601 - 600) = List.replicate 598 'a' ++ ['.', ' '] := by
    rw [show (3601 - 600 : Nat) = 3000 + 1 from rfl, List.drop_succ_cons, overlapPage,
      drop_replicate_append 3000 3598 'a' _ (by omega)]
  have hEC : emitChunk defaultCfg
      { buffer := ' ' :: overlapPage, pageStart := 1, pageEnd := 1, charPos := 0, chunkIndex := 0 }
      = ({ buffer := List.replicate 598 'a' ++ ['.', ' '], pageStart := 1, pageEnd := 1, charPos := 600, chunkIndex := 1 },
         [{ text := List.replicate 3598 'a' ++ ['.'], pageStart := 1, pageEnd := 1,
            bucketId := 0, charStart := 0,
            charEnd := 0 + (List.replicate 3598 'a' ++ ['.']).length, chunkIndex := 0 }]) := by
    exact emitChunk_eq_clean defaultCfg
      { buffer := ' ' :: overlapPage, pageStart := 1, pageEnd := 1, charPos := 0, chunkIndex := 0 }
      3601 (List.replicate 3598 'a' ++ ['.'])
      (List.replicate 598 'a' ++ ['.', ' ']) 1 1 0 0 600 50
      rfl rfl rfl rfl rfl rfl hfb hct10 hne10 hdropb
      (by rw [List.length_append, List.length_replicate]
          show ¬ (598 + 2 < 600)
          omega)
  have hE1 : emitLoop defaultCfg
      (feedPage { buffer := [], pageStart := 0, pageEnd := 0, charPos := 0, chunkIndex := 0 } 1 overlapPage).buffer.length
      (feedPage { buffer := [], pageStart := 0, pageEnd := 0, charPos := 0, chunkIndex := 0 } 1 overlapPage)
      = some ([{ text := List.replicate 3598 'a' ++ ['.'], pageStart := 1, pageEnd := 1,
                 bucketId := 0, charStart := 0,
                 charEnd := 0 + (List.replicate 3598 'a' ++ ['.']).length, chunkIndex := 0 }],
              { buffer := List.replicate 598 'a' ++ ['.', ' '], pageStart := 1, pageEnd := 1, charPos := 600, chunkIndex := 1 }) := by
    rw [show feedPage { buffer := [], pageStart := 0, pageEnd := 0, charPos := 0, chunkIndex := 0 } 1 overlapPage
        = { buffer := ' ' :: overlapPage, pageStart := 1, pageEnd := 1, charPos := 0, chunkIndex := 0 } from rfl]
    rw [show ({ buffer := ' ' :: overlapPage, pageStart := 1, pageEnd := 1, charPos := 0,
                chunkIndex := 0 } : ChunkState).buffer.length = 3601 from hlen]
    have hrec : emitLoop defaultCfg 3600
        (emitChunk defaultCfg { buffer := ' ' :: overlapPage, pageStart := 1, pageEnd := 1, charPos := 0, chunkIndex := 0 }).1
        = some ([], { buffer := List.replicate 598 'a' ++ ['.', ' '], pageStart := 1, pageEnd := 1, charPos := 600, chunkIndex := 1 }) := by
      rw [hEC]
      exact emitLoop_small defaultCfg _ _
        (by show (List.replicate 598 'a' ++ ['.', ' ']).length < 3500
            rw [List.length_append, List.length_replicate]
            show 598 + 2 < 3500
            omega)
    have hstep := emitLoop_succ_of_ge defaultCfg 3600
      { buffer := ' ' :: overlapPage, pageStart := 1, pageEnd := 1, charPos := 0, chunkIndex := 0 }
      (by show ¬ (' ' :: overlapPage).length < 3500; rw [hlen]; omega)
      [] _ hrec
    rw [hEC] at hstep
    exact hstep
  have hCP := chunkPages_cons_some defaultCfg 1 overlapPage [] _ _ _ _ _ hE1 (chunkPages_nil_eq defaultCfg _)
  have hfinal := chunkPageStream_eq defaultCfg [(1, overlapPage)] _ _ hCP
  have hne2 : pyStrip (ChunkState.buffer { buffer := List.replicate 598 'a' ++ ['.', ' '], pageStart := 1, pageEnd := 1, charPos := 600, chunkIndex := 1 }) ≠ [] := by
    show pyStrip (List.replicate 598 'a' ++ ['.', ' ']) ≠ []
    exact pyStrip_ne_nil_of_mem _ '.' (List.mem_append.mpr (Or.inr (by decide))) (by decide)
  rw [finalFlush_nonempty defaultCfg _ hne2] at hfinal
  rw [← show processPdfStreaming defaultCfg [overlapPage]
      = chunkPageStream defaultCfg [(1, overlapPage)] from rfl] at hfinal
  have hstrip2 : pyStrip (List.replicate 598 'a' ++ ['.', ' ']) = List.replicate 598 'a' ++ ['.'] := by
    rw [show (['.', ' '] : List Char) = ['.'] ++ [' '] from rfl, ← List.append_assoc,
      pyStrip_append_space,
      show (598 : Nat) = 597 + 1 from rfl, List.replicate_succ, List.cons_append,
      pyStrip_noedge 'a' '.' (List.replicate 597 'a') (by decide) (by decide)]
  refine ⟨_, _, hfinal, ?_⟩
  show List.IsInfix (pyStrip (List.replicate 598 'a' ++ ['.', ' '])) (List.replicate 3598 'a' ++ ['.'])
  rw [hstrip2]
  exact ⟨List.replicate 3000 'a', [], by
    rw [List.append_nil, ← List.append_assoc, ← List.replicate_add]⟩

theorem jobProgressEmbed_chunks_set (db : DB) (F : List ChunkRow) (j : Option Nat)
    (tp pp ce : Option Nat) :
    (jobProgressEmbed { db with chunks := F } j tp pp ce).chunks = F := by
  cases j <;> rfl

/-- C4: re-embedding is a no-op without force when the document already has a
persisted chunk, and a full replace with force: afterwards the document's
chunk rows are exactly one row per freshly produced chunk (so no stale
chunk_index survives a re-chunking to fewer chunks). -/
theorem claim_C4_reembed_noop_force_replace (embedO : List Char → List Char) (db : DB)
    (b : BillId) (texts : List (List Char)) (batchSize : Nat) (jobId : Option Nat) :
    (chunkRowsOf db b ≠ [] → embedBill embedO db b texts false batchSize jobId = db) ∧
    (∀ cs, processPdfStreaming defaultCfg texts = some cs →
      chunkRowsOf (embedBill embedO db b texts true batchSize jobId) b
        = cs.map (rowOfChunk embedO b)) := by
  constructor
  · intro hne
    rw [embedBill, if_pos ⟨rfl, List.length_pos.mpr hne⟩]
  · intro cs hcs
    have h' : chunkPageStream defaultCfg (pagesFrom 1 texts) = some cs := hcs
    obtain ⟨hb, hps, hidx⟩ := chunkPageStream_inv defaultCfg (pagesFrom 1 texts) cs
      (pagesMono_pagesFrom texts 1 0 (by omega)) h'
    have key : (embedBill embedO db b texts true batchSize jobId).chunks
        = db.chunks.filter (fun r => decide (¬ r.bill = b)) ++ cs.map (rowOfChunk embedO b) := by
      rw [embedBill, if_neg (fun hcon => absurd hcon.1 (by decide))]
      simp only [hcs]
      rw [embedBillLoop_chunks, List.nil_append, jobProgressEmbed_chunks_set]
      rw [← List.foldl_map (rowOfChunk embedO b) upsertChunkRow cs]
      have hfresh : ∀ r ∈ db.chunks.filter (fun r => decide (¬ r.bill = b)),
          ∀ n ∈ cs.map (rowOfChunk embedO b),
            ¬(r.bill = n.bill ∧ r.chunkIndex = n.chunkIndex) := by
        intro r hr n hn hcon
        have hrb : ¬ r.bill = b := of_decide_eq_true (List.mem_filter.mp hr).2
        obtain ⟨c, _, rfl⟩ := List.mem_map.mp hn
        exact hrb (hcon.1.trans rfl)
      have hlt : cs.Pairwise (fun a c => a.chunkIndex < c.chunkIndex) := by
        have h1 : (cs.map (fun c => c.chunkIndex)).Pairwise (fun x y => x < y) := by
          rw [hidx]
          exact natRange_pairwise_lt cs.length 0
        exact List.pairwise_map.mp h1
      have hpair : (cs.map (rowOfChunk embedO b)).Pairwise
          (fun x y => ¬(x.bill = y.bill ∧ x.chunkIndex = y.chunkIndex)) := by
        rw [List.pairwise_map]
        refine hlt.imp ?_
        intro a c h hcon
        have h2 : a.chunkIndex = c.chunkIndex := hcon.2
        omega
      exact upsertFold_fresh (cs.map (rowOfChunk embedO b)) _ hfresh hpair
    have hnil : (db.chunks.filter (fun r => decide (¬ r.bill = b))).filter
        (fun r => decide (r.bill = b)) = [] := by
      rw [List.filter_eq_nil]
      intro r hr
      have hrb : ¬ r.bill = b := of_decide_eq_true (List.mem_filter.mp hr).2
      simpa using hrb
    have hself : (cs.map (rowOfChunk embedO b)).filter (fun r => decide (r.bill = b))
        = cs.map (rowOfChunk embedO b) := by
      rw [List.filter_eq_self]
      intro n hn
      obtain ⟨c, _, rfl⟩ := List.mem_map.mp hn
      exact decide_eq_true rfl
    rw [chunkRowsOf, key, List.filter_append, hnil, hself, List.nil_append]

/-- C4 witness: a database already holding one chunk of the sample bill is left
unchanged by a non-forced re-embed of the one-page document; a forced re-embed
replaces the bill's rows by exactly the one freshly chunked row. -/
theorem claim_C4_reembed_noop_force_replace_witness :
    chunkRowsOf sampleDB4 sampleBill ≠ [] ∧
    embedBill sampleEmbed sampleDB4 sampleBill [['a']] false 64 none = sampleDB4 ∧
    processPdfStreaming defaultCfg [['a']] = some [sampleChunk4] ∧
    chunkRowsOf (embedBill sampleEmbed sampleDB4 sampleBill [['a']] true 64 none) sampleBill
      = [sampleChunk4].map (rowOfChunk sampleEmbed sampleBill) :=
  ⟨by decide,
   (claim_C4_reembed_noop_force_replace sampleEmbed sampleDB4 sampleBill [['a']] 64 none).1
     (by decide),
   by decide,
   (claim_C4_reembed_noop_force_replace sampleEmbed sampleDB4 sampleBill [['a']] 64 none).2
     [sampleChunk4] (by decide)⟩

end OpenCongress
